import Mathlib

/-!
Verification development for the Raft consensus library (Rust sources under
src/src/raft).  The Rust data structures and the state-transforming parts of
the consensus engine are shallowly embedded as executable Lean definitions:

* machine integers (u64, i32) are modelled as Nat; byte strings as List Nat
  (one Nat per byte / code unit);
* file and network I/O is modelled explicitly: outbound RPC exchanges take
  their responses from an explicit environment value, and the persistence
  layer (log dump, metadata flush) is dropped since it only mirrors the
  in-memory values that the embedding keeps;
* async handlers hold the consensus lock for their whole run in the source
  (tokio mutex around every handler), so each handler is embedded as a pure
  state transformer;
* re-entrant outbound replication rounds (replicate -> append_entries_to_peers
  -> leader_advance_commit_index -> append_and_replicate_final_config ->
  replicate) are bounded by an explicit fuel parameter.

Timer effects are recorded as ghost counters, and the entries fed to the
state machine / apply loop are recorded in ghost lists, so that the claims
about timers and entry application are statable.
-/

namespace Raft

/-- Word-size bound used by the source through std::u64::MAX
(peer.rs, quoram_match_index returns u64::MAX for an empty member set). -/
def U64MAX : Nat := 2 ^ 64 - 1

/-- Modelled from the spec (section 6): the proto file itself is not in the
repository, the LogEntry wire encoding has kind Data = 0, Noop = 1,
Configuration = 2.  The prost-generated struct stores the kind as an i32,
which we keep as a plain Nat field. -/
def ENTRY_DATA : Nat := 0

/-- Noop entry kind (spec section 6). -/
def ENTRY_NOOP : Nat := 1

/-- Configuration entry kind (spec section 6). -/
def ENTRY_CONFIGURATION : Nat := 2

/-- proto::LogEntry: index, term, entry_type (i32) and opaque payload bytes. -/
structure LogEntry where
  index : Nat
  term : Nat
  entryType : Nat
  data : List Nat
deriving DecidableEq, Repr, Inhabited

/-- log.rs VIRTUAL_LOG_ENTRY: the synthetic (index 0, term 0) Noop entry. -/
def VIRTUAL_LOG_ENTRY : LogEntry :=
  { index := 0, term := 0, entryType := ENTRY_NOOP, data := [] }

/-- log.rs Log: in-memory entries plus start_index.  The metadata_dir field
and the append mutex only serve the persistence layer and are omitted;
dump()/reload() write and read back exactly the two fields kept here. -/
structure Log where
  entries : List LogEntry
  startIndex : Nat
deriving DecidableEq, Repr, Inhabited

namespace Log

/-- Log::last_index (log.rs lines 164-176). -/
def lastIndex (l : Log) (lastIncludedIndex : Nat) : Nat :=
  match l.entries.getLast? with
  | none =>
    if lastIncludedIndex > 0 ∧ lastIncludedIndex ≥ l.startIndex - 1 then
      lastIncludedIndex
    else
      l.startIndex - 1
  | some e => e.index

/-- Log::last_term (log.rs lines 180-192). -/
def lastTerm (l : Log) (lastIncludedTerm : Nat) : Nat :=
  match l.entries.getLast? with
  | none =>
    if lastIncludedTerm > 0 ∧ l.startIndex > 0 then lastIncludedTerm else 0
  | some e => e.term

/-- Log::entry (log.rs lines 116-138): index 0 and indices below start_index
answer with the virtual zero entry, in-range indices are looked up in the
vector, indices past the end give None. -/
def entry (l : Log) (index : Nat) : Option LogEntry :=
  if index = 0 then some VIRTUAL_LOG_ENTRY
  else if index < l.startIndex then some VIRTUAL_LOG_ENTRY
  else l.entries.get? (index - l.startIndex)

/-- Log::pack_entries (log.rs lines 141-160). -/
def packEntries (l : Log) (nextIndex : Nat) : List LogEntry :=
  if nextIndex < l.startIndex then []
  else if nextIndex > l.lastIndex 0 + 1 then []
  else l.entries.drop (nextIndex - l.startIndex)

/-- Log::prev_log_term (log.rs lines 198-234). -/
def prevLogTerm (l : Log) (prevLogIndex lastIncludedIndex lastIncludedTerm : Nat) : Nat :=
  if prevLogIndex = 0 then 0
  else if prevLogIndex = lastIncludedIndex then lastIncludedTerm
  else
    match l.entry prevLogIndex with
    | some e =>
      if e.index = prevLogIndex ∨ prevLogIndex ≥ l.startIndex then e.term else 0
    | none => 0

/-- Helper of Log::append_data: build the entries with indices assigned
contiguously after cur (the loop body of log.rs lines 63-72). -/
def mkDataEntries (term : Nat) : Nat → List (Nat × List Nat) → List LogEntry
  | _, [] => []
  | cur, (ty, d) :: rest =>
    { index := cur + 1, term := term, entryType := ty, data := d }
      :: mkDataEntries term (cur + 1) rest

/-- Log::append_data (log.rs lines 54-74). -/
def appendData (l : Log) (term : Nat) (entryDataList : List (Nat × List Nat)) : Log :=
  { l with entries := l.entries ++ mkDataEntries term (l.lastIndex 0) entryDataList }

/-- Log::append_entries (log.rs lines 77-100): follower side, the already
indexed entries are appended verbatim. -/
def appendEntries (l : Log) (es : List LogEntry) : Log :=
  if es = [] then l else { l with entries := l.entries ++ es }

/-- Log::truncate_suffix (log.rs lines 237-282).  When last_index_kept is in
front of the in-memory window every branch of the source clears the vector;
otherwise the vector is cut down to last_index_kept - start_index + 1
elements, and an over-long keep request is left untouched. -/
def truncateSuffix (l : Log) (lastIndexKept : Nat) : Log :=
  if l.entries = [] ∨ lastIndexKept < l.startIndex then
    { l with entries := [] }
  else
    let newLen := lastIndexKept - l.startIndex + 1
    if newLen < l.entries.length then { l with entries := l.entries.take newLen }
    else l

/-- Log::truncate_prefix (log.rs lines 285-318). -/
def truncatePrefix (l : Log) (lastIncludedIndexFromSnapshot : Nat) : Log :=
  if lastIncludedIndexFromSnapshot < l.startIndex then l
  else
    let currentLast := l.lastIndex 0
    let l' :=
      if currentLast ≤ lastIncludedIndexFromSnapshot then { l with entries := [] }
      else
        let drainCount := lastIncludedIndexFromSnapshot - l.startIndex + 1
        if drainCount > 0 ∧ drainCount ≤ l.entries.length then
          { l with entries := l.entries.drop drainCount }
        else if drainCount > l.entries.length then { l with entries := [] }
        else l
    { l' with startIndex := lastIncludedIndexFromSnapshot + 1 }

/-- Log::committed_entries_len (log.rs lines 321-329). -/
def committedEntriesLen (l : Log) (commitIndex : Nat) : Nat :=
  if commitIndex < l.startIndex then 0
  else min (commitIndex - l.startIndex + 1) l.entries.length

/-- Well-formedness of the in-memory window: entry k of the vector carries
index start_index + k (the gap-free, monotone numbering of spec section 3). -/
def Contiguous (l : Log) : Prop :=
  l.entries.map (·.index) = List.range' l.startIndex l.entries.length

instance (l : Log) : Decidable l.Contiguous := by
  unfold Contiguous; infer_instance

end Log

/-! ### JSON transport (model of serde_json)

config.rs serializes a Config with serde_json::to_vec and reads it back with
serde_json::from_slice; the derived Serialize/Deserialize impls map the
struct to a JSON object field by field.  serde_json is an external crate, so
it is modelled here as an executable compact JSON printer and a
schema-directed parser over code-unit lists, following the library's
behaviour: keys in declaration order on output, any key order accepted on
input, duplicate or missing fields rejected.  (serde additionally skips
unknown fields; the model rejects them, which no self-produced data hits.) -/

/-- Code units of a string literal. -/
def codes (s : String) : List Nat := s.data.map (fun c => c.toNat)

/-- Lowercase hex digit character, as emitted by serde_json for control
character escapes. -/
def hexDigitChar (n : Nat) : Nat := if n < 10 then 48 + n else 87 + n

/-- serde_json escaping of one character: quote and backslash are escaped,
control characters use the short escapes or a lowercase \u00xy form, and
everything else is emitted verbatim. -/
def jsonEscapeChar (c : Nat) : List Nat :=
  if c = 34 then [92, 34]
  else if c = 92 then [92, 92]
  else if c = 8 then [92, 98]
  else if c = 9 then [92, 116]
  else if c = 10 then [92, 110]
  else if c = 12 then [92, 102]
  else if c = 13 then [92, 114]
  else if c < 32 then [92, 117, 48, 48, hexDigitChar (c / 16), hexDigitChar (c % 16)]
  else [c]

/-- Serialized JSON string: opening quote, escaped body, closing quote. -/
def printJsonString (s : List Nat) : List Nat :=
  34 :: s.foldr (fun c acc => jsonEscapeChar c ++ acc) [34]

/-- Decimal digit characters of a natural number, structured with a fuel
bound so the definition is structurally recursive (n itself always
suffices as fuel). -/
def natToDigitsAux : Nat → Nat → List Nat
  | 0, n => [48 + n % 10]
  | Nat.succ fuel, n =>
    if n < 10 then [48 + n] else natToDigitsAux fuel (n / 10) ++ [48 + n % 10]

/-- Decimal digit characters of a natural number. -/
def natToDigits (n : Nat) : List Nat := natToDigitsAux n n

/-- JSON whitespace. -/
def isWs (c : Nat) : Bool := c = 32 || c = 9 || c = 10 || c = 13

/-- Skip leading whitespace. -/
def skipWs (l : List Nat) : List Nat := l.dropWhile isWs

/-- Expect one specific token character after optional whitespace. -/
def expectTok (c : Nat) (l : List Nat) : Option (List Nat) :=
  match skipWs l with
  | c' :: rest => if c' = c then some rest else none
  | [] => none

/-- Value of one hex digit character. -/
def parseHexDigit (c : Nat) : Option Nat :=
  if 48 ≤ c ∧ c ≤ 57 then some (c - 48)
  else if 97 ≤ c ∧ c ≤ 102 then some (c - 87)
  else if 65 ≤ c ∧ c ≤ 70 then some (c - 55)
  else none

/-- Meaning of a short escape character. -/
def unescapeChar (e : Nat) : Option Nat :=
  if e = 34 then some 34
  else if e = 92 then some 92
  else if e = 47 then some 47
  else if e = 98 then some 8
  else if e = 102 then some 12
  else if e = 110 then some 10
  else if e = 114 then some 13
  else if e = 116 then some 9
  else none

/-- Parse a JSON string body up to the closing quote, decoding escapes. -/
def parseStringBody : List Nat → Option (List Nat × List Nat)
  | [] => none
  | c :: rest =>
    if c = 34 then some ([], rest)
    else if c = 92 then
      match rest with
      | [] => none
      | e :: rest2 =>
        if e = 117 then
          match rest2 with
          | h1 :: h2 :: h3 :: h4 :: rest3 =>
            match parseHexDigit h1, parseHexDigit h2, parseHexDigit h3, parseHexDigit h4 with
            | some d1, some d2, some d3, some d4 =>
              match parseStringBody rest3 with
              | some (s, r) => some ((((d1 * 16 + d2) * 16 + d3) * 16 + d4) :: s, r)
              | none => none
            | _, _, _, _ => none
          | _ => none
        else
          match unescapeChar e with
          | some u =>
            match parseStringBody rest2 with
            | some (s, r) => some (u :: s, r)
            | none => none
          | none => none
    else
      match parseStringBody rest with
      | some (s, r) => some (c :: s, r)
      | none => none

/-- Parse a JSON string (after optional whitespace). -/
def parseJsonString (l : List Nat) : Option (List Nat × List Nat) :=
  match skipWs l with
  | c :: rest => if c = 34 then parseStringBody rest else none
  | [] => none

/-- Decimal digit character. -/
def isDigitChar (c : Nat) : Bool := 48 ≤ c && c ≤ 57

/-- Parse a natural number written in decimal (after optional whitespace):
the longest digit prefix, folded into a value. -/
def parseNat (l : List Nat) : Option (Nat × List Nat) :=
  if ((skipWs l).takeWhile isDigitChar) = [] then none
  else
    some (((skipWs l).takeWhile isDigitChar).foldl (fun a c => a * 10 + (c - 48)) 0,
      (skipWs l).drop ((skipWs l).takeWhile isDigitChar).length)

/-- Ordered insertion step of the insertion sort below. -/
def sortedInsert (le : α → α → Bool) (a : α) : List α → List α
  | [] => [a]
  | b :: bs => if le a b then a :: b :: bs else b :: sortedInsert le a bs

/-- Stable insertion sort by the given order (used to model the sorting the
source does with sort_unstable / sort_by_key; for a total order the sorted
result does not depend on the algorithm). -/
def sortedInsertBy (le : α → α → Bool) : List α → List α
  | [] => []
  | a :: as => sortedInsert le a (sortedInsertBy le as)

/-- proto::ServerInfo: server_id (u64, 0 is the none marker) and address. -/
structure ServerInfo where
  serverId : Nat
  serverAddr : List Nat
deriving DecidableEq, Repr, Inhabited

/-- config.rs Config: the C_old and C_new member lists. -/
structure Config where
  oldServers : List ServerInfo
  newServers : List ServerInfo
deriving DecidableEq, Repr, Inhabited

/-- Serialized ServerInfo object, fields in declaration order as serde_json
emits them. -/
def printServerInfo (si : ServerInfo) : List Nat :=
  123 :: printJsonString (codes ("server_id")) ++ 58 :: natToDigits si.serverId
    ++ 44 :: printJsonString (codes ("server_addr")) ++ 58 :: printJsonString si.serverAddr
    ++ [125]

/-- Comma-separated concatenation of serialized array elements. -/
def joinComma : List (List Nat) → List Nat
  | [] => []
  | [x] => x
  | x :: xs => x ++ 44 :: joinComma xs

/-- Serialized JSON array of ServerInfo objects. -/
def printServerInfoList (xs : List ServerInfo) : List Nat :=
  91 :: joinComma (xs.map printServerInfo) ++ [93]

/-- Parse one field of a ServerInfo object; the result marks which of the two
fields was read. -/
def parseServerInfoField (l : List Nat) :
    Option ((Option Nat × Option (List Nat)) × List Nat) :=
  match parseJsonString l with
  | none => none
  | some (key, r1) =>
    match expectTok 58 r1 with
    | none => none
    | some r2 =>
      if key = codes ("server_id") then
        match parseNat r2 with
        | some (n, r3) => some ((some n, none), r3)
        | none => none
      else if key = codes ("server_addr") then
        match parseJsonString r2 with
        | some (s, r3) => some ((none, some s), r3)
        | none => none
      else none

/-- Combine the two parsed fields of a ServerInfo object; a duplicate or a
missing field is a deserialization error, as in serde. -/
def combineServerInfoFields :
    Option Nat × Option (List Nat) → Option Nat × Option (List Nat) → Option ServerInfo
  | (some sid, none), (none, some saddr) => some { serverId := sid, serverAddr := saddr }
  | (none, some saddr), (some sid, none) => some { serverId := sid, serverAddr := saddr }
  | _, _ => none

/-- Parse a ServerInfo object: both fields required, either order. -/
def parseServerInfo (l : List Nat) : Option (ServerInfo × List Nat) :=
  match expectTok 123 l with
  | none => none
  | some r0 =>
    match parseServerInfoField r0 with
    | none => none
    | some (f1, r1) =>
      match skipWs r1 with
      | 44 :: r2 =>
        match parseServerInfoField r2 with
        | none => none
        | some (f2, r3) =>
          match expectTok 125 r3 with
          | none => none
          | some r4 =>
            match combineServerInfoFields f1 f2 with
            | some si => some (si, r4)
            | none => none
      | _ => none

/-- Parse the comma-separated elements of a non-empty ServerInfo array.  The
fuel bounds the element count; the caller passes the input length, which
always suffices because every element consumes at least one character. -/
def parseServerInfoElems : Nat → List Nat → Option (List ServerInfo × List Nat)
  | 0, _ => none
  | Nat.succ fuel, l =>
    match parseServerInfo l with
    | none => none
    | some (si, r1) =>
      match skipWs r1 with
      | 44 :: r2 =>
        match parseServerInfoElems fuel r2 with
        | some (sis, r3) => some (si :: sis, r3)
        | none => none
      | 93 :: r2 => some ([si], r2)
      | _ => none

/-- Parse a JSON array of ServerInfo objects. -/
def parseServerInfoList (l : List Nat) : Option (List ServerInfo × List Nat) :=
  match expectTok 91 l with
  | none => none
  | some r0 =>
    match skipWs r0 with
    | 93 :: r1 => some ([], r1)
    | _ => parseServerInfoElems r0.length r0

/-- Parse one field of a Config object. -/
def parseConfigField (l : List Nat) :
    Option ((Option (List ServerInfo) × Option (List ServerInfo)) × List Nat) :=
  match parseJsonString l with
  | none => none
  | some (key, r1) =>
    match expectTok 58 r1 with
    | none => none
    | some r2 =>
      if key = codes ("old_servers") then
        match parseServerInfoList r2 with
        | some (xs, r3) => some ((some xs, none), r3)
        | none => none
      else if key = codes ("new_servers") then
        match parseServerInfoList r2 with
        | some (xs, r3) => some ((none, some xs), r3)
        | none => none
      else none

/-- Combine the two parsed fields of a Config object. -/
def combineConfigFields :
    Option (List ServerInfo) × Option (List ServerInfo)
      → Option (List ServerInfo) × Option (List ServerInfo) → Option Config
  | (some os, none), (none, some ns) => some { oldServers := os, newServers := ns }
  | (none, some ns), (some os, none) => some { oldServers := os, newServers := ns }
  | _, _ => none

/-- Parse a Config object: both fields required, either order. -/
def parseConfig (l : List Nat) : Option (Config × List Nat) :=
  match expectTok 123 l with
  | none => none
  | some r0 =>
    match parseConfigField r0 with
    | none => none
    | some (f1, r1) =>
      match skipWs r1 with
      | 44 :: r2 =>
        match parseConfigField r2 with
        | none => none
        | some (f2, r3) =>
          match expectTok 125 r3 with
          | none => none
          | some r4 =>
            match combineConfigFields f1 f2 with
            | some c => some (c, r4)
            | none => none
      | _ => none

namespace Config

/-- Config::to_data (config.rs lines 69-71): serde_json::to_vec of the
struct, a compact JSON object with the fields in declaration order. -/
def toData (c : Config) : List Nat :=
  123 :: printJsonString (codes ("old_servers")) ++ 58 :: printServerInfoList c.oldServers
    ++ 44 :: printJsonString (codes ("new_servers")) ++ 58 :: printServerInfoList c.newServers
    ++ [125]

/-- Config::from_data (config.rs lines 65-67): serde_json::from_slice; the
source panics on a parse error (expect), which the model returns as none. -/
def fromData (data : List Nat) : Option Config :=
  match parseConfig data with
  | some (c, r) => if skipWs r = [] then some c else none
  | none => none

/-- Config::new (config.rs lines 51-56). -/
def new : Config := { oldServers := [], newServers := [] }

/-- Config::new_stable (config.rs lines 58-63). -/
def newStable (initialServers : List ServerInfo) : Config :=
  { oldServers := [], newServers := initialServers }

/-- Config::is_joint (config.rs lines 141-143). -/
def isJoint (c : Config) : Bool :=
  !c.oldServers.isEmpty && !c.newServers.isEmpty

/-- Config::is_stable (config.rs lines 146-148). -/
def isStable (c : Config) : Bool :=
  c.oldServers.isEmpty && !c.newServers.isEmpty

/-- Config::is_empty (config.rs lines 151-153). -/
def isEmpty (c : Config) : Bool :=
  c.oldServers.isEmpty && c.newServers.isEmpty

/-- Config::start_transition (config.rs lines 119-130): current new_servers
become old_servers, the target list becomes new_servers.  The source panics
when the configuration is already joint or has no members; its callers guard
with is_stable, making those branches unreachable, so the model is total. -/
def startTransition (c : Config) (targetNewServers : List ServerInfo) : Config :=
  { oldServers := c.newServers, newServers := targetNewServers }

/-- Config::finalize_transition (config.rs lines 105-116): drop old_servers.
Same remark on the panic guards as for startTransition. -/
def finalizeTransition (c : Config) : Config :=
  { oldServers := [], newServers := c.newServers }

/-- config.rs ConfigState: whether a node sits in new_servers / old_servers. -/
structure State' where
  newing : Bool
  olding : Bool
deriving DecidableEq, Repr, Inhabited

/-- Config::get_node_state (config.rs lines 133-138). -/
def getNodeState (c : Config) (nodeId : Nat) : State' :=
  { newing := c.newServers.any (fun s => s.serverId == nodeId),
    olding := c.oldServers.any (fun s => s.serverId == nodeId) }

/-- Membership test equivalent to Config::all_ids_in_config().contains
(config.rs lines 169-179, used at consensus.rs line 1337). -/
def allIdsContains (c : Config) (nodeId : Nat) : Bool :=
  c.oldServers.any (fun s => s.serverId == nodeId)
    || c.newServers.any (fun s => s.serverId == nodeId)

/-- Stable sort of a member list by server_id, as the roundtrip test does
with sort_by_key (config.rs test, lines 287-290); implemented as insertion
sort so the definition reduces in the kernel. -/
def sortServers (xs : List ServerInfo) : List ServerInfo :=
  sortedInsertBy (fun a b => a.serverId ≤ b.serverId) xs

/-- Both member lists sorted by server_id. -/
def sortByServerId (c : Config) : Config :=
  { oldServers := sortServers c.oldServers, newServers := sortServers c.newServers }

end Config

/-- ConfigState::new (config.rs lines 35-39). -/
def ConfigState.new : Config.State' := { newing := true, olding := false }

/-- Log::last_configuration (log.rs lines 332-343): the most recent
Configuration entry of the in-memory log, decoded; a decode failure is a
panic in the source and none here. -/
def Log.lastConfiguration (l : Log) : Option Config :=
  match l.entries.reverse.find? (fun e => e.entryType == ENTRY_CONFIGURATION) with
  | some e => Config.fromData e.data
  | none => none

/-! ### Peers (peer.rs) -/

/-- peer.rs Peer: the leader-side volatile replication state of one remote
server. -/
structure Peer where
  id : Nat
  addr : List Nat
  nextIndex : Nat
  matchIndex : Nat
  voteGranted : Bool
  configState : Config.State'
deriving DecidableEq, Repr, Inhabited

/-- Peer::new (peer.rs lines 23-32). -/
def Peer.new (serverId : Nat) (serverAddr : List Nat) : Peer :=
  { id := serverId, addr := serverAddr, nextIndex := 1, matchIndex := 0,
    voteGranted := false, configState := ConfigState.new }

namespace PeerManager

/-- PeerManager::peer (peer.rs lines 78-82): first peer with the id. -/
def findPeer (peers : List Peer) (serverId : Nat) : Option Peer :=
  peers.find? (fun p => p.id == serverId)

/-- Update the peer with the given id in place (the source mutates it through
the &mut returned by PeerManager::peer). -/
def updatePeer (peers : List Peer) (serverId : Nat) (f : Peer → Peer) : List Peer :=
  peers.map (fun p => if p.id == serverId then f p else p)

/-- PeerManager::add (peer.rs lines 46-53): the incoming peers get
next_index = last_log_index + 1 and are appended. -/
def add (peers newPeers : List Peer) (lastLogIndex : Nat) : List Peer :=
  peers ++ newPeers.map (fun p => { p with nextIndex := lastLogIndex + 1 })

/-- PeerManager::remove (peer.rs lines 55-64): for each id remove the first
peer carrying it. -/
def remove (peers : List Peer) (serverIds : List Nat) : List Peer :=
  serverIds.foldl (fun ps sid => ps.eraseP (fun p => p.id == sid)) peers

/-- PeerManager::contains (peer.rs lines 83-88). -/
def contains (peers : List Peer) (serverId : Nat) : Bool :=
  (findPeer peers serverId).isSome

/-- PeerManager::reset_vote (peer.rs lines 90-94). -/
def resetVote (peers : List Peer) : List Peer :=
  peers.map (fun p => { p with voteGranted := false })

/-- Median selection of peer.rs get_quorum_match_index (lines 102-128):
sorted match indexes, element (len - 1) / 2, u64::MAX when the member set is
empty. -/
def quorumMatchIndexOf (matchIndexes : List Nat) : Nat :=
  if matchIndexes = [] then U64MAX
  else
    ((sortedInsertBy (fun a b => a ≤ b) matchIndexes).get?
      ((matchIndexes.length - 1) / 2)).getD 0

/-- PeerManager::quoram_match_index (peer.rs lines 96-146): the minimum of
the new-set and old-set medians, each collected from the leader (when member)
followed by the member peers' match_index. -/
def quoramMatchIndex (peers : List Peer) (leaderConfigState : Config.State')
    (leaderLastIndex : Nat) : Nat :=
  let collect := fun (leaderIn : Bool) (inCfg : Peer → Bool) =>
    (if leaderIn then [leaderLastIndex] else [])
      ++ (peers.filter inCfg).map (fun p => p.matchIndex)
  min
    (quorumMatchIndexOf (collect leaderConfigState.newing (fun p => p.configState.newing)))
    (quorumMatchIndexOf (collect leaderConfigState.olding (fun p => p.configState.olding)))

end PeerManager

/-! ### Consensus state (consensus.rs) -/

/-- consensus.rs State. -/
inductive NodeRole
  | follower
  | candidate
  | leader
deriving DecidableEq, Repr, Inhabited

/-- proto::EntryType as an enum; the wire value is the Nat of LogEntry. -/
inductive EntryKind
  | data
  | noop
  | configuration
deriving DecidableEq, Repr, Inhabited

/-- proto::EntryType::from_i32. -/
def entryTypeFromInt (n : Nat) : Option EntryKind :=
  if n = ENTRY_DATA then some .data
  else if n = ENTRY_NOOP then some .noop
  else if n = ENTRY_CONFIGURATION then some .configuration
  else none

/-- Wire value of an EntryKind. -/
def EntryKind.toInt : EntryKind → Nat
  | .data => ENTRY_DATA
  | .noop => ENTRY_NOOP
  | .configuration => ENTRY_CONFIGURATION

/-- config.rs NONE_SERVER_ID. -/
def NONE_SERVER_ID : Nat := 0

/-- config.rs NONE_DATA ("None"), the payload of Noop entries. -/
def NONE_DATA : List Nat := codes ("None")

/-- proto::AppendEntriesRequest. -/
structure AppendEntriesRequest where
  term : Nat
  leaderId : Nat
  prevLogIndex : Nat
  prevLogTerm : Nat
  entries : List LogEntry
  leaderCommit : Nat
deriving DecidableEq, Repr, Inhabited

/-- proto::AppendEntriesResponse. -/
structure AppendEntriesResponse where
  term : Nat
  success : Bool
deriving DecidableEq, Repr, Inhabited

/-- proto::RequestVoteRequest. -/
structure RequestVoteRequest where
  term : Nat
  candidateId : Nat
  lastLogIndex : Nat
  lastLogTerm : Nat
deriving DecidableEq, Repr, Inhabited

/-- proto::RequestVoteResponse. -/
structure RequestVoteResponse where
  term : Nat
  voteGranted : Bool
deriving DecidableEq, Repr, Inhabited

/-- proto::SetConfigurationRequest. -/
structure SetConfigurationRequest where
  newServers : List ServerInfo
deriving DecidableEq, Repr, Inhabited

/-- proto::SetConfigurationResponse. -/
structure SetConfigurationResponse where
  success : Bool
deriving DecidableEq, Repr, Inhabited

/-- The consensus-relevant state of one replica: the fields of
consensus.rs Consensus together with the metadata cache (current_term,
voted_for) of metadata.rs, plus ghost instrumentation.

Ghost fields (no counterpart bits are lost: each mirrors an effect the
source performs through I/O):

* smApplied: payloads passed to StateMachine::apply, in order;
* appliedLog: every log entry processed by a commit-advance apply loop;
* electionTimerResets / heartbeatTimerResets: reset calls on the two timers;
* timersStopped: set by shutdown(), which stops all timers;
* metaSyncs: metadata sync() calls;
* seq: outbound RPC sequence number used to index the environment. -/
structure RaftState where
  serverId : Nat
  serverAddr : List Nat
  state : NodeRole
  currentTerm : Nat
  votedFor : Nat
  currentConfig : Config
  nodeConfigState : Config.State'
  log : Log
  commitIndex : Nat
  lastApplied : Nat
  leaderId : Nat
  peers : List Peer
  snapshotLastIncludedIndex : Nat
  snapshotLastIncludedTerm : Nat
  snapshotConfiguration : Option Config
  smApplied : List (List Nat)
  appliedLog : List LogEntry
  electionTimerResets : Nat
  heartbeatTimerResets : Nat
  timersStopped : Bool
  metaSyncs : Nat
  seq : Nat
deriving DecidableEq, Repr, Inhabited

/-- Outcome of one InstallSnapshot session to a peer, abstracting the
chunked file transfer of consensus.rs install_snapshot_to_peer: an RPC or
file error aborts with no state change, a response carrying a higher term
makes the leader step down, and a completed transfer updates the peer's
next_index/match_index from the snapshot bounds. -/
inductive InstallOutcome
  | rpcFail
  | chunkTerm (t : Nat)
  | ok
deriving DecidableEq, Repr, Inhabited

/-- Environment of one handler run: the responses of awaited outbound RPCs,
indexed by the ghost sequence number. -/
structure Env where
  appendResp : Nat → Option AppendEntriesResponse
  voteResp : Nat → Option RequestVoteResponse
  install : Nat → InstallOutcome

namespace RaftState

/-- Consensus::update_peer_config_states (consensus.rs lines 229-234). -/
def updatePeerConfigStates (s : RaftState) : RaftState :=
  { s with
    nodeConfigState := s.currentConfig.getNodeState s.serverId,
    peers := s.peers.map (fun p => { p with configState := s.currentConfig.getNodeState p.id }) }

/-- Consensus::step_down (consensus.rs lines 1394-1432). -/
def stepDown (newTerm : Nat) (s : RaftState) : RaftState :=
  if newTerm < s.currentTerm then s
  else
    let oldState := s.state
    let s := { s with state := NodeRole.follower }
    let s :=
      if newTerm > s.currentTerm then
        { s with currentTerm := newTerm, votedFor := NONE_SERVER_ID, leaderId := NONE_SERVER_ID }
      else if oldState = NodeRole.leader ∨ oldState = NodeRole.candidate then
        { s with leaderId := NONE_SERVER_ID }
      else s
    { s with
      metaSyncs := s.metaSyncs + 1,
      electionTimerResets := s.electionTimerResets + 1 }

/-- Consensus::shutdown (consensus.rs lines 684-696). -/
def shutdown (s : RaftState) : RaftState :=
  { s with state := NodeRole.follower, leaderId := NONE_SERVER_ID, timersStopped := true }

/-- Consensus::apply_configuration_to_internal_state
(consensus.rs lines 574-633). -/
def applyConfigurationToInternalState (cfg : Config) (committed : Bool) (s : RaftState) :
    RaftState :=
  if committed then
    let s := { s with currentConfig := cfg }
    let s := s.updatePeerConfigStates
    if s.state = NodeRole.leader ∧ s.currentConfig.isStable ∧ ¬s.nodeConfigState.newing then
      s.shutdown
    else s
  else
    let pending := cfg.getNodeState s.serverId
    let s :=
      if cfg.isJoint then
        let newPeers :=
          (cfg.newServers.filter (fun si =>
            si.serverId != s.serverId && !(PeerManager.contains s.peers si.serverId))).map
            (fun si => Peer.new si.serverId si.serverAddr)
        if newPeers = [] then s
        else
          { s with
            peers := PeerManager.add s.peers newPeers
              (s.log.lastIndex s.snapshotLastIncludedIndex) }
      else if cfg.isStable then
        let removeIds :=
          (s.peers.filter (fun p => !cfg.newServers.any (fun si => si.serverId == p.id))).map
            (fun p => p.id)
        let s :=
          if removeIds = [] then s
          else { s with peers := PeerManager.remove s.peers removeIds }
        if s.state ≠ NodeRole.leader ∧ ¬pending.newing then s.shutdown else s
      else s
    { s with
      nodeConfigState := pending,
      peers := s.peers.map (fun p => { p with configState := cfg.getNodeState p.id }) }

/-- One iteration of the follower apply loop of
Consensus::follower_advance_commit_index (consensus.rs lines 542-569); the
Bool is false when the loop breaks because the entry was not found. -/
def followerApplyOne (s : RaftState) (i : Nat) : RaftState × Bool :=
  if i ≤ s.lastApplied then (s, true)
  else
    match s.log.entry i with
    | some e =>
      let s :=
        match (entryTypeFromInt e.entryType).getD EntryKind.data with
        | .data => { s with smApplied := s.smApplied ++ [e.data] }
        | .configuration =>
          match Config.fromData e.data with
          | some c => s.applyConfigurationToInternalState c true
          | none => s
        | .noop => s
      ({ s with lastApplied := i, appliedLog := s.appliedLog ++ [e] }, true)
    | none => (s, false)

/-- The follower apply loop over the index range. -/
def followerApplyLoop : RaftState → List Nat → RaftState
  | s, [] => s
  | s, i :: rest =>
    match s.followerApplyOne i with
    | (s', true) => followerApplyLoop s' rest
    | (s', false) => s'

/-- Consensus::follower_advance_commit_index (consensus.rs lines 530-572);
note that commit_index is set to last_applied at the end. -/
def followerAdvanceCommitIndex (leaderCommitIndex : Nat) (s : RaftState) : RaftState :=
  let newCommitIndex :=
    min leaderCommitIndex (s.log.lastIndex s.snapshotLastIncludedIndex)
  if newCommitIndex > s.commitIndex then
    let s' :=
      s.followerApplyLoop
        (List.range' (s.commitIndex + 1) (newCommitIndex - s.commitIndex))
    { s' with commitIndex := s'.lastApplied }
  else s

/-- Step 4 of the AppendEntries receiver (consensus.rs lines 852-881): the
prev_log consistency check. -/
def appendEntriesConsistencyOk (req : AppendEntriesRequest) (s : RaftState) : Bool :=
  if req.prevLogIndex > 0 then
    if req.prevLogIndex < s.log.startIndex then
      if req.prevLogIndex = s.snapshotLastIncludedIndex then
        req.prevLogTerm == s.snapshotLastIncludedTerm
      else
        true
    else
      match s.log.entry req.prevLogIndex with
      | some e => e.term == req.prevLogTerm
      | none => false
  else true

/-- Step 7 of the AppendEntries receiver (consensus.rs lines 909-914): every
appended Configuration entry is applied as pending membership state. -/
def applyPendingConfigs : RaftState → List LogEntry → RaftState
  | s, [] => s
  | s, e :: rest =>
    let s :=
      if entryTypeFromInt e.entryType = some EntryKind.configuration then
        match Config.fromData e.data with
        | some c => s.applyConfigurationToInternalState c false
        | none => s
      else s
    applyPendingConfigs s rest

/-- Steps 2-7 of the AppendEntries receiver (consensus.rs lines 838-916),
entered once the request's term is not below ours: possible step_down,
election timer reset and leader_id update, prev_log consistency check
(false = refused), conflict-suffix truncation, append of the entries not
already present, and pending application of appended Configuration
entries. -/
def appendEntriesCheckAndAppend (req : AppendEntriesRequest) (s : RaftState) :
    RaftState × Bool :=
  let s :=
    if req.term > s.currentTerm then s.stepDown req.term
    else if s.state = NodeRole.leader ∧ req.leaderId ≠ s.serverId then s.stepDown req.term
    else s
  let s :=
    { s with
      electionTimerResets := s.electionTimerResets + 1,
      leaderId := req.leaderId }
  if ¬appendEntriesConsistencyOk req s then (s, false)
  else
    let s :=
      match req.entries with
      | [] => s
      | first :: _ =>
        match s.log.entry first.index with
        | some ex =>
          if ex.term ≠ first.term then
            { s with log := s.log.truncateSuffix (first.index - 1) }
          else s
        | none => s
    let s :=
      match req.entries with
      | [] => s
      | _ :: _ =>
        let toAdd := req.entries.filter (fun e =>
          decide (e.index > s.log.lastIndex s.snapshotLastIncludedIndex)
            || (match s.log.entry e.index with
                | some ex => ex.term != e.term
                | none => true))
        if toAdd = [] then s
        else applyPendingConfigs { s with log := s.log.appendEntries toAdd } toAdd
    (s, true)

/-- Consensus::handle_append_entries_rpc (consensus.rs lines 821-927). -/
def handleAppendEntriesRpc (req : AppendEntriesRequest) (s : RaftState) :
    AppendEntriesResponse × RaftState :=
  if req.term < s.currentTerm then
    ({ term := s.currentTerm, success := false }, s)
  else
    match s.appendEntriesCheckAndAppend req with
    | (s1, false) => ({ term := s1.currentTerm, success := false }, s1)
    | (s1, true) =>
      let s2 :=
        if req.leaderCommit > s1.commitIndex then
          s1.followerAdvanceCommitIndex req.leaderCommit
        else s1
      ({ term := s2.currentTerm, success := true }, s2)

/-- Consensus::handle_request_vote_rpc (consensus.rs lines 1296-1360). -/
def handleRequestVoteRpc (req : RequestVoteRequest) (s : RaftState) :
    RequestVoteResponse × RaftState :=
  if req.term < s.currentTerm then
    ({ term := s.currentTerm, voteGranted := false }, s)
  else
    let s := if req.term > s.currentTerm then s.stepDown req.term else s
    let logOk :=
      req.lastLogTerm > s.log.lastTerm s.snapshotLastIncludedTerm ∨
        (req.lastLogTerm = s.log.lastTerm s.snapshotLastIncludedTerm ∧
          req.lastLogIndex ≥ s.log.lastIndex s.snapshotLastIncludedIndex)
    if logOk ∧ (s.votedFor = NONE_SERVER_ID ∨ s.votedFor = req.candidateId) then
      if ¬s.currentConfig.allIdsContains req.candidateId ∧ ¬s.currentConfig.isEmpty then
        ({ term := s.currentTerm, voteGranted := false }, s)
      else
        let s :=
          { s with
            votedFor := req.candidateId,
            metaSyncs := s.metaSyncs + 1,
            state := NodeRole.follower,
            leaderId := NONE_SERVER_ID,
            electionTimerResets := s.electionTimerResets + 1 }
        ({ term := s.currentTerm, voteGranted := true }, s)
    else
      ({ term := s.currentTerm, voteGranted := false }, s)

/-- Consensus::install_snapshot_to_peer (consensus.rs lines 356-457) with
the chunked file transfer abstracted to an InstallOutcome (see
InstallOutcome); the consensus-state effects of the source are kept: a
higher-term chunk response steps down, a completed transfer sets the peer's
next_index and match_index from the snapshot bounds, any error leaves the
state alone. -/
def installSnapshotToPeer (env : Env) (peerId : Nat) (s : RaftState) : RaftState :=
  match PeerManager.findPeer s.peers peerId with
  | none => s
  | some _ =>
    let outcome := env.install s.seq
    let s := { s with seq := s.seq + 1 }
    match outcome with
    | .rpcFail => s
    | .chunkTerm t => if t > s.currentTerm then s.stepDown t else s
    | .ok =>
      { s with
        peers := PeerManager.updatePeer s.peers peerId (fun p =>
          { p with
            nextIndex := s.snapshotLastIncludedIndex + 1,
            matchIndex := s.snapshotLastIncludedIndex }) }

/-- Consensus::append_one_entry_to_peer (consensus.rs lines 262-353): one
AppendEntries exchange with one peer (or an InstallSnapshot session if the
peer's next_index fell behind the in-memory log), with the response
bookkeeping of lines 329-353. -/
def appendOneEntryToPeer (env : Env) (peerId : Nat) (heartbeat : Bool) (s : RaftState) :
    RaftState :=
  match PeerManager.findPeer s.peers peerId with
  | none => s
  | some p =>
    let needsSnapshot := ¬heartbeat ∧ p.nextIndex < s.log.startIndex
    if needsSnapshot then s.installSnapshotToPeer env peerId
    else
      let entriesToSend := if heartbeat then [] else s.log.packEntries p.nextIndex
      let prevLogIndex := p.nextIndex - 1
      let resp := env.appendResp s.seq
      let s := { s with seq := s.seq + 1 }
      match resp with
      | none => s
      | some r =>
        if r.term > s.currentTerm then s.stepDown r.term
        else
          { s with
            peers := PeerManager.updatePeer s.peers peerId (fun p' =>
              if r.success then
                let m := prevLogIndex + entriesToSend.length
                { p' with matchIndex := m, nextIndex := m + 1 }
              else if p'.nextIndex > 1 then { p' with nextIndex := p'.nextIndex - 1 }
              else p') }

/-- The per-response processing loop of Consensus::request_vote_rpc
(consensus.rs lines 1234-1266): a higher-term response steps down and
returns at once (Except.error), a granted vote marks the peer and bumps the
per-membership tallies, and after every item the loop returns early when the
node is no longer a Candidate. -/
def processVoteResponses :
    RaftState → List (Nat × Option RequestVoteResponse) → Nat → Nat →
      Except RaftState (RaftState × Nat × Nat)
  | s, [], gNew, gOld => Except.ok (s, gNew, gOld)
  | s, (peerId, resp) :: rest, gNew, gOld =>
    let step : Except RaftState (RaftState × Nat × Nat) :=
      match resp with
      | some r =>
        if r.term > s.currentTerm then Except.error (s.stepDown r.term)
        else if r.voteGranted then
          match PeerManager.findPeer s.peers peerId with
          | some p =>
            Except.ok
              ({ s with
                  peers := PeerManager.updatePeer s.peers peerId
                    (fun p' => { p' with voteGranted := true }) },
                gNew + (if p.configState.newing then 1 else 0),
                gOld + (if p.configState.olding then 1 else 0))
          | none => Except.ok (s, gNew, gOld)
        else Except.ok (s, gNew, gOld)
      | none => Except.ok (s, gNew, gOld)
    match step with
    | Except.error s' => Except.error s'
    | Except.ok (s', g1, g2) =>
      if s'.state ≠ NodeRole.candidate then Except.error s'
      else processVoteResponses s' rest g1 g2

/-- The local (pre-RPC) part of Consensus::handle_election_timeout
(consensus.rs lines 1157-1170): become Candidate, adopt term + 1, vote for
self, sync metadata, clear leader_id. -/
def electionTimeoutLocal (s : RaftState) : RaftState :=
  { s with
    state := NodeRole.candidate,
    currentTerm := s.currentTerm + 1,
    votedFor := s.serverId,
    metaSyncs := s.metaSyncs + 1,
    leaderId := NONE_SERVER_ID }

end RaftState

/-! ### The re-entrant leader machinery.

The functions below form the source's await-recursion cycle
replicate -> append_entries_to_peers -> leader_advance_commit_index ->
append_and_replicate_final_config -> append_and_replicate_config_change ->
replicate (entered from become_leader, handle_election_timeout,
handle_set_configuration_rpc and handle_propose_rpc).  The cycle is bounded
by an explicit fuel parameter, decremented on every nested call: out of fuel
the remaining work is dropped and the state returned as is.  In the source
the recursion depth is bounded because each nesting level commits a joint
configuration and replicates the corresponding stable one, so every theorem
below holds for all fuel values, and witnesses use a fuel that is large
enough for the run to complete. -/

open RaftState in
mutual

/-- Consensus::replicate (consensus.rs lines 1448-1474). -/
def replicate : Nat → Env → EntryKind → List Nat → RaftState → RaftState
  | 0, _, _, _, s => s
  | Nat.succ f, env, ty, data, s =>
    if s.state ≠ NodeRole.leader then s
    else
      let s := { s with log := s.log.appendData s.currentTerm [(ty.toInt, data)] }
      let s :=
        if ty = EntryKind.configuration then
          match Config.fromData data with
          | some c => s.applyConfigurationToInternalState c false
          | none => s
        else s
      appendEntriesToPeers f env false s

/-- Consensus::append_entries_to_peers (consensus.rs lines 237-260). -/
def appendEntriesToPeers : Nat → Env → Bool → RaftState → RaftState
  | 0, _, _, s => s
  | Nat.succ f, env, heartbeat, s =>
    if s.state ≠ NodeRole.leader then s
    else
      let ids := s.peers.map (fun p => p.id)
      if ids = [] then leaderAdvanceCommitIndex f env s
      else leaderAdvanceCommitIndex f env (appendToEachPeer f env heartbeat ids s)

/-- The per-peer loop of Consensus::append_entries_to_peers. -/
def appendToEachPeer : Nat → Env → Bool → List Nat → RaftState → RaftState
  | 0, _, _, _, s => s
  | Nat.succ _, _, _, [], s => s
  | Nat.succ f, env, heartbeat, peerId :: rest, s =>
    appendToEachPeer f env heartbeat rest (s.appendOneEntryToPeer env peerId heartbeat)

/-- Consensus::leader_advance_commit_index (consensus.rs lines 461-528). -/
def leaderAdvanceCommitIndex : Nat → Env → RaftState → RaftState
  | 0, _, s => s
  | Nat.succ f, env, s =>
    if s.state ≠ NodeRole.leader then s
    else
      let newCommitIndex :=
        PeerManager.quoramMatchIndex s.peers s.nodeConfigState
          (s.log.lastIndex s.snapshotLastIncludedIndex)
      if newCommitIndex > s.commitIndex then
        let ok : Bool :=
          match s.log.entry newCommitIndex with
          | some e => e.term == s.currentTerm
          | none => decide (newCommitIndex ≤ s.snapshotLastIncludedIndex)
        if ¬ok then s
        else
          let s' :=
            leaderApplyLoop f env
              (List.range' (s.commitIndex + 1) (newCommitIndex - s.commitIndex)) s
          { s' with commitIndex := newCommitIndex }
      else s

/-- The apply loop of Consensus::leader_advance_commit_index (lines
493-525): like the follower loop, but committing a joint Configuration
entry additionally triggers replication of the final stable config. -/
def leaderApplyLoop : Nat → Env → List Nat → RaftState → RaftState
  | 0, _, _, s => s
  | Nat.succ _, _, [], s => s
  | Nat.succ f, env, i :: rest, s =>
    if i ≤ s.lastApplied then leaderApplyLoop f env rest s
    else
      match s.log.entry i with
      | some e =>
        let s :=
          match (entryTypeFromInt e.entryType).getD EntryKind.data with
          | .data => { s with smApplied := s.smApplied ++ [e.data] }
          | .configuration =>
            match Config.fromData e.data with
            | some c =>
              let s := s.applyConfigurationToInternalState c true
              if c.isJoint then appendAndReplicateFinalConfig f env s else s
            | none => s
          | .noop => s
        leaderApplyLoop f env rest
          { s with lastApplied := i, appliedLog := s.appliedLog ++ [e] }
      | none => s

/-- Consensus::append_and_replicate_final_config (consensus.rs lines
674-682). -/
def appendAndReplicateFinalConfig : Nat → Env → RaftState → RaftState
  | 0, _, s => s
  | Nat.succ f, env, s =>
    if s.state ≠ NodeRole.leader then s
    else if ¬s.currentConfig.isJoint then s
    else (appendAndReplicateConfigChange f env none s).2

/-- Consensus::append_and_replicate_config_change (consensus.rs lines
635-672); the Bool is the returned success flag. -/
def appendAndReplicateConfigChange :
    Nat → Env → Option (List ServerInfo) → RaftState → Bool × RaftState
  | 0, _, _, s => (false, s)
  | Nat.succ f, env, targetOpt, s =>
    if s.state ≠ NodeRole.leader then (false, s)
    else
      match targetOpt with
      | some targets =>
        if targets = [] then (false, s)
        else if ¬s.currentConfig.isStable then (false, s)
        else
          (true,
            replicate f env EntryKind.configuration
              (s.currentConfig.startTransition targets).toData s)
      | none =>
        if ¬s.currentConfig.isJoint then (false, s)
        else
          (true,
            replicate f env EntryKind.configuration
              s.currentConfig.finalizeTransition.toData s)

/-- Consensus::become_leader (consensus.rs lines 1363-1391). -/
def becomeLeader : Nat → Env → RaftState → RaftState
  | 0, _, s => s
  | Nat.succ f, env, s =>
    if s.state ≠ NodeRole.candidate then s
    else
      let s := { s with state := NodeRole.leader, leaderId := s.serverId }
      let lastIdx := s.log.lastIndex s.snapshotLastIncludedIndex
      let s :=
        { s with
          peers := s.peers.map (fun p => { p with nextIndex := lastIdx + 1, matchIndex := 0 }) }
      let s := replicate f env EntryKind.noop NONE_DATA s
      { s with heartbeatTimerResets := s.heartbeatTimerResets + 1 }

/-- Consensus::request_vote_rpc (consensus.rs lines 1182-1290): reset the
vote marks, send one RequestVote per peer (responses indexed by the ghost
sequence number), tally the granted votes per membership set, and become
leader when both sets reach a strict majority. -/
def requestVoteRpc : Nat → Env → RaftState → RaftState
  | 0, _, s => s
  | Nat.succ f, env, s =>
    let s := { s with peers := PeerManager.resetVote s.peers }
    let peerIds := s.peers.map (fun p => p.id)
    let items := peerIds.enum.map (fun ip => (ip.2, env.voteResp (s.seq + ip.1)))
    let s := { s with seq := s.seq + peerIds.length }
    let gNew0 : Nat := if s.nodeConfigState.newing then 1 else 0
    let gOld0 : Nat := if s.nodeConfigState.olding then 1 else 0
    match s.processVoteResponses items gNew0 gOld0 with
    | Except.error s' => s'
    | Except.ok (s', gNew, gOld) =>
      let totalNew := gNew0 + (s'.peers.filter (fun p => p.configState.newing)).length
      let totalOld := gOld0 + (s'.peers.filter (fun p => p.configState.olding)).length
      if (totalNew = 0 ∨ gNew * 2 > totalNew) ∧ (totalOld = 0 ∨ gOld * 2 > totalOld) then
        if s'.state = NodeRole.candidate then becomeLeader f env s' else s'
      else s'

end

/-- Consensus::handle_election_timeout (consensus.rs lines 1149-1179). -/
def handleElectionTimeout (fuel : Nat) (env : Env) (s : RaftState) : RaftState :=
  match s.state with
  | NodeRole.leader => { s with electionTimerResets := s.electionTimerResets + 1 }
  | _ =>
    let s := s.electionTimeoutLocal
    let s := requestVoteRpc fuel env s
    { s with electionTimerResets := s.electionTimerResets + 1 }

/-- Consensus::handle_set_configuration_rpc (consensus.rs lines
1077-1106). -/
def handleSetConfigurationRpc (fuel : Nat) (env : Env) (req : SetConfigurationRequest)
    (s : RaftState) : SetConfigurationResponse × RaftState :=
  if s.state ≠ NodeRole.leader then ({ success := false }, s)
  else if req.newServers = [] then ({ success := false }, s)
  else if s.currentConfig.isJoint then ({ success := false }, s)
  else if (match s.log.lastConfiguration with
           | some c => c.isJoint
           | none => false) then ({ success := false }, s)
  else
    let r := appendAndReplicateConfigChange fuel env (some req.newServers) s
    ({ success := r.1 }, r.2)

/-! ### The multi-replica election model.

Election safety is a property of the whole cluster, so the election-relevant
transitions of the protocol are modelled as a step relation over a system
state holding every replica's RaftState, with the per-node transitions taken
from the embedded handlers above.  The model covers a cluster under one
static stable configuration with member-id set M (spec section 8 scenario;
reconfiguration changes M and is outside this model's scope):

* startElection: an election timeout fires on a member (the local metadata
  part of handle_election_timeout); the RequestVote request it broadcasts is
  recorded and may later be delivered to any node, arbitrarily late or
  duplicated;
* deliverVote: a node runs handle_request_vote_rpc on a recorded request; a
  granted response is recorded in the vote history (the response reaches the
  candidate's tally only for its current round, see request_vote_rpc);
* observeTerm: a node observes a term in any other RPC or response and runs
  step_down (consensus.rs calls it from every handler on a higher term);
* leaderElected: a candidate whose current-round tally reached a strict
  majority S of M — each counted grant being a recorded vote for it in its
  current term, plus its own self-vote recorded at startElection — runs
  become_leader; the transition is recorded in the leader history.  The
  tally-to-majority tie to the embedded request_vote_rpc counting is proved
  separately (claim C1's second conjunct). -/

/-- Global state: every node's replica state plus ghost histories of
granted votes (voter, candidate, term), leader transitions (node, term) and
broadcast RequestVote requests. -/
structure SysState where
  nodes : Nat → RaftState
  votes : List (Nat × Nat × Nat)
  leaders : List (Nat × Nat)
  requests : List RequestVoteRequest

/-- One election-relevant transition of the cluster (member set M). -/
inductive SysStep (M : Finset Nat) : SysState → SysState → Prop
  | startElection (c : Nat) (ss : SysState) :
      c ∈ M →
      (ss.nodes c).state ≠ NodeRole.leader →
      SysStep M ss
        { nodes := Function.update ss.nodes c (ss.nodes c).electionTimeoutLocal,
          votes := ss.votes ++ [(c, c, (ss.nodes c).currentTerm + 1)],
          leaders := ss.leaders,
          requests := ss.requests ++
            [{ term := (ss.nodes c).currentTerm + 1,
               candidateId := c,
               lastLogIndex :=
                 (ss.nodes c).log.lastIndex (ss.nodes c).snapshotLastIncludedIndex,
               lastLogTerm :=
                 (ss.nodes c).log.lastTerm (ss.nodes c).snapshotLastIncludedTerm }] }
  | deliverVote (v : Nat) (req : RequestVoteRequest) (ss : SysState) :
      req ∈ ss.requests →
      SysStep M ss
        { nodes := Function.update ss.nodes v (RaftState.handleRequestVoteRpc req (ss.nodes v)).2,
          votes :=
            if (RaftState.handleRequestVoteRpc req (ss.nodes v)).1.voteGranted then
              ss.votes ++ [(v, req.candidateId, req.term)]
            else ss.votes,
          leaders := ss.leaders,
          requests := ss.requests }
  | observeTerm (v t : Nat) (ss : SysState) :
      SysStep M ss
        { ss with nodes := Function.update ss.nodes v ((ss.nodes v).stepDown t) }
  | leaderElected (c fuel : Nat) (env : Env) (S : Finset Nat) (ss : SysState) :
      (ss.nodes c).state = NodeRole.candidate →
      S ⊆ M →
      2 * S.card > M.card →
      (∀ v ∈ S, (v, c, (ss.nodes c).currentTerm) ∈ ss.votes) →
      SysStep M ss
        { ss with
          nodes := Function.update ss.nodes c (becomeLeader fuel env (ss.nodes c)),
          leaders := ss.leaders ++ [(c, (ss.nodes c).currentTerm)] }

/-- Reflexive-transitive closure of SysStep. -/
inductive SysReachable (M : Finset Nat) (init : SysState) : SysState → Prop
  | refl : SysReachable M init init
  | tail {a b : SysState} :
      SysReachable M init a → SysStep M a b → SysReachable M init b

/-- A fresh cluster: empty histories, every node keyed by its own id. -/
def SysInit (ss : SysState) : Prop :=
  (∀ v, (ss.nodes v).serverId = v) ∧
    ss.votes = [] ∧ ss.leaders = [] ∧ ss.requests = []

/-- The inductive invariant behind election safety:
ids are fixed; recorded requests and votes name member candidates; a vote's
term never exceeds its voter's current term; a voter still in a vote's term
still has voted_for pointing at that vote's candidate; a voter grants at
most one candidate per term; every recorded leader transition carries a
strict majority of recorded votes. -/
def SysInv (M : Finset Nat) (ss : SysState) : Prop :=
  (∀ v, (ss.nodes v).serverId = v) ∧
  (∀ r ∈ ss.requests, r.candidateId ∈ M) ∧
  (∀ x ∈ ss.votes, x.2.1 ∈ M) ∧
  (∀ x ∈ ss.votes, x.2.2 ≤ (ss.nodes x.1).currentTerm) ∧
  (∀ x ∈ ss.votes, (ss.nodes x.1).currentTerm = x.2.2 → (ss.nodes x.1).votedFor = x.2.1) ∧
  (∀ x y, x ∈ ss.votes → y ∈ ss.votes → x.1 = y.1 → x.2.2 = y.2.2 → x.2.1 = y.2.1) ∧
  (∀ p ∈ ss.leaders,
    ∃ S : Finset Nat, S ⊆ M ∧ 2 * S.card > M.card ∧ ∀ v ∈ S, (v, p.1, p.2) ∈ ss.votes)

/-- Transition summary used throughout the invariant proof: the fueled
leader machinery and step_down keep the server id, never decrease the
current term, and keep voted_for whenever they keep the term. -/
def VoteSafe (s s' : RaftState) : Prop :=
  s'.serverId = s.serverId ∧
    s.currentTerm ≤ s'.currentTerm ∧
    (s'.currentTerm = s.currentTerm → s'.votedFor = s.votedFor)

/-! ### Concrete fixtures used by witness theorems. -/

/-- An environment in which every outbound RPC fails (no responses). -/
def envNone : Env :=
  { appendResp := fun _ => none, voteResp := fun _ => none,
    install := fun _ => InstallOutcome.rpcFail }

/-- A three-member stable configuration (ids 1, 2, 3). -/
def cfg123 : Config :=
  { oldServers := [],
    newServers :=
      [{ serverId := 1, serverAddr := [97] },
       { serverId := 2, serverAddr := [98] },
       { serverId := 3, serverAddr := [99] }] }

/-- A base replica state for witnesses: node 1 of the three-node cluster,
freshly started. -/
def witnessBase : RaftState :=
  { serverId := 1, serverAddr := [97], state := NodeRole.follower,
    currentTerm := 1, votedFor := 0, currentConfig := cfg123,
    nodeConfigState := cfg123.getNodeState 1,
    log := { entries := [], startIndex := 1 },
    commitIndex := 0, lastApplied := 0, leaderId := 0,
    peers := [Peer.new 2 [98], Peer.new 3 [99]],
    snapshotLastIncludedIndex := 0, snapshotLastIncludedTerm := 0,
    snapshotConfiguration := none, smApplied := [], appliedLog := [],
    electionTimerResets := 0, heartbeatTimerResets := 0, timersStopped := false,
    metaSyncs := 0, seq := 0 }

/-- A leader state for witnesses: node 1 leads term 2 with a Noop entry at
index 1 replicated to peer 2. -/
def witnessLeader : RaftState :=
  { witnessBase with
    state := NodeRole.leader, currentTerm := 2, leaderId := 1,
    log := ⟨[⟨1, 2, 1, NONE_DATA⟩], 1⟩,
    peers := [{ Peer.new 2 [98] with matchIndex := 1, nextIndex := 2 }, Peer.new 3 [99]] }

/-- A fresh three-node cluster for the election-safety witness: every node
starts as the base replica keyed by its own id, with empty histories. -/
def wsys0 : SysState :=
  { nodes := fun v => { witnessBase with serverId := v },
    votes := [], leaders := [], requests := [] }

/-- An environment in which every RequestVote response arrives granted at
term 2 (and all other RPCs fail). -/
def envGrant : Env :=
  { appendResp := fun _ => none,
    voteResp := fun _ => some { term := 2, voteGranted := true },
    install := fun _ => InstallOutcome.rpcFail }

/-- Node 1 as a candidate of term 2 (as left by the local part of an
election timeout), used by the request_vote_rpc witness. -/
def wcand : RaftState :=
  { witnessBase with state := NodeRole.candidate, currentTerm := 2, votedFor := 1 }

/-! ## Theorems

First the supporting lemmas about the JSON transport, the log, and the
handlers; then, claim by claim, the claim theorems with their witnesses and
counterexamples. -/

section JsonRoundtrip

/-- Escape bodies concatenate: folding the escaper over s with a longer
accumulator appends. -/
theorem escFoldr_append (s : List Nat) (a b : List Nat) :
    (s.foldr (fun c acc => jsonEscapeChar c ++ acc) a) ++ b
      = s.foldr (fun c acc => jsonEscapeChar c ++ acc) (a ++ b) := by
  induction s with
  | nil => rfl
  | cons c s ih => simp [List.foldr_cons, List.append_assoc, ih]

/-- Hex digit characters decode to their value. -/
theorem parseHexDigit_hexDigitChar (d : Nat) (h : d < 16) :
    parseHexDigit (hexDigitChar d) = some d := by
  unfold hexDigitChar
  rcases Nat.lt_or_ge d 10 with h10 | h10
  · rw [if_pos h10]
    unfold parseHexDigit
    rw [if_pos (by omega)]
    congr 1
    omega
  · rw [if_neg (by omega)]
    unfold parseHexDigit
    rw [if_neg (by omega), if_pos (by omega)]
    congr 1
    omega

/-- One raw (unescaped) character steps through the string body parser. -/
theorem parseStringBody_raw (c : Nat) (t : List Nat) (h34 : c ≠ 34) (h92 : c ≠ 92) :
    parseStringBody (c :: t)
      = match parseStringBody t with
        | some (s, r) => some (c :: s, r)
        | none => none := by
  rw [parseStringBody.eq_def]
  dsimp only
  rw [if_neg h34, if_neg h92]

/-- One short escape steps through the string body parser. -/
theorem parseStringBody_shortEscape (e u : Nat) (t : List Nat)
    (he : e ≠ 117) (hu : unescapeChar e = some u) :
    parseStringBody (92 :: e :: t)
      = match parseStringBody t with
        | some (s, r) => some (u :: s, r)
        | none => none := by
  rw [parseStringBody.eq_def]
  dsimp only
  rw [if_neg (by omega : ¬(92 : Nat) = 34), if_pos rfl, if_neg he, hu]

/-- One \u00xy escape of a control character steps through the string body
parser. -/
theorem parseStringBody_uEscape (c : Nat) (t : List Nat) (hc : c < 32) :
    parseStringBody (92 :: 117 :: 48 :: 48 :: hexDigitChar (c / 16)
        :: hexDigitChar (c % 16) :: t)
      = match parseStringBody t with
        | some (s, r) => some (c :: s, r)
        | none => none := by
  have e1 := parseHexDigit_hexDigitChar (c / 16) (by omega)
  have e2 := parseHexDigit_hexDigitChar (c % 16) (by omega)
  rw [parseStringBody.eq_def]
  dsimp only
  rw [if_neg (by omega : ¬(92 : Nat) = 34), if_pos rfl, if_pos rfl]
  have h48 : parseHexDigit 48 = some 0 := rfl
  rw [h48, e1, e2]
  dsimp only
  have hval : (((0 * 16 + 0) * 16 + c / 16) * 16 + c % 16) = c := by omega
  rw [hval]

/-- The string body parser undoes the serde escaping. -/
theorem parseStringBody_escape (s : List Nat) (r : List Nat) :
    parseStringBody (s.foldr (fun c acc => jsonEscapeChar c ++ acc) (34 :: r))
      = some (s, r) := by
  induction s with
  | nil =>
    simp only [List.foldr_nil]
    rw [parseStringBody.eq_def]
    dsimp only
    rw [if_pos rfl]
  | cons c s ih =>
    simp only [List.foldr_cons]
    by_cases h34 : c = 34
    · rw [show jsonEscapeChar c = [92, 34] by rw [h34]; rfl]
      rw [List.cons_append, List.cons_append, List.nil_append]
      rw [parseStringBody_shortEscape 34 34 _ (by omega) rfl, ih, h34]
    · by_cases h92 : c = 92
      · rw [show jsonEscapeChar c = [92, 92] by rw [h92]; rfl]
        rw [List.cons_append, List.cons_append, List.nil_append]
        rw [parseStringBody_shortEscape 92 92 _ (by omega) rfl, ih, h92]
      · by_cases h8 : c = 8
        · rw [show jsonEscapeChar c = [92, 98] by rw [h8]; rfl]
          rw [List.cons_append, List.cons_append, List.nil_append]
          rw [parseStringBody_shortEscape 98 8 _ (by omega) rfl, ih, h8]
        · by_cases h9 : c = 9
          · rw [show jsonEscapeChar c = [92, 116] by rw [h9]; rfl]
            rw [List.cons_append, List.cons_append, List.nil_append]
            rw [parseStringBody_shortEscape 116 9 _ (by omega) rfl, ih, h9]
          · by_cases h10 : c = 10
            · rw [show jsonEscapeChar c = [92, 110] by rw [h10]; rfl]
              rw [List.cons_append, List.cons_append, List.nil_append]
              rw [parseStringBody_shortEscape 110 10 _ (by omega) rfl, ih, h10]
            · by_cases h12 : c = 12
              · rw [show jsonEscapeChar c = [92, 102] by rw [h12]; rfl]
                rw [List.cons_append, List.cons_append, List.nil_append]
                rw [parseStringBody_shortEscape 102 12 _ (by omega) rfl, ih, h12]
              · by_cases h13 : c = 13
                · rw [show jsonEscapeChar c = [92, 114] by rw [h13]; rfl]
                  rw [List.cons_append, List.cons_append, List.nil_append]
                  rw [parseStringBody_shortEscape 114 13 _ (by omega) rfl, ih, h13]
                · by_cases hc : c < 32
                  · rw [show jsonEscapeChar c
                        = [92, 117, 48, 48, hexDigitChar (c / 16), hexDigitChar (c % 16)] by
                      unfold jsonEscapeChar
                      rw [if_neg h34, if_neg h92, if_neg h8, if_neg h9, if_neg h10,
                        if_neg h12, if_neg h13, if_pos hc]]
                    simp only [List.cons_append, List.nil_append]
                    rw [parseStringBody_uEscape c _ hc, ih]
                  · rw [show jsonEscapeChar c = [c] by
                      unfold jsonEscapeChar
                      rw [if_neg h34, if_neg h92, if_neg h8, if_neg h9, if_neg h10,
                        if_neg h12, if_neg h13, if_neg hc]]
                    rw [List.cons_append, List.nil_append]
                    rw [parseStringBody_raw c _ h34 h92, ih]

/-- Whitespace skipping is the identity on non-whitespace heads. -/
theorem skipWs_cons (c : Nat) (l : List Nat) (h : isWs c = false) :
    skipWs (c :: l) = c :: l := by
  simp [skipWs, List.dropWhile_cons, h]

/-- The JSON string parser undoes the JSON string printer. -/
theorem parseJsonString_print (s : List Nat) (r : List Nat) :
    parseJsonString (printJsonString s ++ r) = some (s, r) := by
  unfold printJsonString parseJsonString
  rw [List.cons_append, escFoldr_append, skipWs_cons 34 _ (by decide)]
  simp only [List.singleton_append, if_true]
  exact parseStringBody_escape s r

/-- Specification of the digit-printer helper: all characters are decimal
digits, the list is non-empty, and folding the decimal accumulator over it
recovers the number. -/
theorem natToDigitsAux_spec :
    ∀ (fuel n : Nat), n ≤ fuel →
      (∀ c ∈ natToDigitsAux fuel n, isDigitChar c = true) ∧
        natToDigitsAux fuel n ≠ [] ∧
        ∀ acc, (natToDigitsAux fuel n).foldl (fun a c => a * 10 + (c - 48)) acc
          = acc * 10 ^ (natToDigitsAux fuel n).length + n := by
  intro fuel
  induction fuel with
  | zero =>
    intro n hn
    have hn0 : n = 0 := by omega
    subst hn0
    refine ⟨?_, by simp [natToDigitsAux], ?_⟩
    · intro c hc
      simp [natToDigitsAux] at hc
      simp [isDigitChar, hc]
    · intro acc
      simp [natToDigitsAux]
  | succ fuel ih =>
    intro n hn
    by_cases h10 : n < 10
    · have hone : natToDigitsAux (fuel + 1) n = [48 + n] := by
        simp [natToDigitsAux, h10]
      refine ⟨?_, by simp [hone], ?_⟩
      · intro c hc
        rw [hone] at hc
        simp at hc
        subst hc
        unfold isDigitChar
        rw [Bool.and_eq_true, decide_eq_true_eq, decide_eq_true_eq]
        omega
      · intro acc
        rw [hone]
        simp only [List.foldl_cons, List.foldl_nil, List.length_cons,
          List.length_nil, Nat.zero_add, pow_one]
        omega
    · have hdiv : n / 10 ≤ fuel := by
        have := Nat.div_lt_self (show 0 < n by omega) (show 1 < 10 by omega)
        omega
      obtain ⟨ihd, ihne, ihfold⟩ := ih (n / 10) hdiv
      have hstep : natToDigitsAux (fuel + 1) n
          = natToDigitsAux fuel (n / 10) ++ [48 + n % 10] := by
        simp [natToDigitsAux, h10]
      refine ⟨?_, ?_, ?_⟩
      · intro c hc
        rw [hstep] at hc
        rcases List.mem_append.1 hc with h | h
        · exact ihd c h
        · simp at h
          subst h
          unfold isDigitChar
          rw [Bool.and_eq_true, decide_eq_true_eq, decide_eq_true_eq]
          omega
      · rw [hstep]
        simp
      · intro acc
        rw [hstep, List.foldl_append, ihfold acc]
        simp only [List.foldl_cons, List.foldl_nil, List.length_append,
          List.length_cons, List.length_nil]
        have hp : acc * 10 ^ ((natToDigitsAux fuel (n / 10)).length + (0 + 1))
            = acc * 10 ^ (natToDigitsAux fuel (n / 10)).length * 10 := by
          ring
        rw [hp]
        have := Nat.div_add_mod n 10
        set M := acc * 10 ^ (natToDigitsAux fuel (n / 10)).length
        omega

/-- Digit characters are not whitespace. -/
theorem isWs_of_digit (c : Nat) (h : isDigitChar c = true) : isWs c = false := by
  simp [isDigitChar] at h
  simp [isWs]
  omega

/-- takeWhile / drop through an append whose left part satisfies the
predicate and whose right part starts with a failing character. -/
theorem takeWhile_append_spec (p : Nat → Bool) (xs r : List Nat)
    (hxs : ∀ c ∈ xs, p c = true) (hr : ∀ c, r.head? = some c → p c = false) :
    (xs ++ r).takeWhile p = xs := by
  induction xs with
  | nil =>
    simp only [List.nil_append]
    cases r with
    | nil => rfl
    | cons c r' => simp [List.takeWhile_cons, hr c rfl]
  | cons x xs ih =>
    simp only [List.cons_append, List.takeWhile_cons, hxs x (by simp), if_true]
    rw [ih (fun c hc => hxs c (by simp [hc]))]

/-- The decimal parser undoes the decimal printer when the rest does not
start with a digit. -/
theorem parseNat_print (n : Nat) (r : List Nat)
    (hr : ∀ c, r.head? = some c → isDigitChar c = false) :
    parseNat (natToDigits n ++ r) = some (n, r) := by
  obtain ⟨hd, hne, hfold⟩ := natToDigitsAux_spec n n (Nat.le_refl n)
  unfold natToDigits at *
  cases hds : natToDigitsAux n n with
  | nil => exact absurd hds hne
  | cons d ds =>
    rw [hds] at hd hfold
    unfold parseNat
    have hskip : skipWs ((d :: ds) ++ r) = (d :: ds) ++ r := by
      apply skipWs_cons
      exact isWs_of_digit d (hd d (by simp))
    simp only [List.cons_append] at hskip ⊢
    rw [hskip]
    simp only [← List.cons_append]
    rw [takeWhile_append_spec isDigitChar (d :: ds) r hd hr]
    simp only [if_neg (by simp : ¬(d :: ds) = [])]
    rw [show ((d :: ds) ++ r).drop (d :: ds).length = r from List.drop_left _ _]
    have := hfold 0
    simp only [Nat.zero_mul, Nat.zero_add] at this
    rw [this]

/-- One expected token at the head of the input. -/
theorem expectTok_cons (c : Nat) (r : List Nat) (hws : isWs c = false) :
    expectTok c (c :: r) = some r := by
  unfold expectTok
  rw [skipWs_cons c r hws]
  simp

/-- A printed server_id field parses back. -/
theorem parseServerInfoField_id (sid : Nat) (t : List Nat)
    (ht : ∀ c, t.head? = some c → isDigitChar c = false) :
    parseServerInfoField
        (printJsonString (codes ("server_id")) ++ 58 :: (natToDigits sid ++ t))
      = some ((some sid, none), t) := by
  unfold parseServerInfoField
  rw [parseJsonString_print]
  dsimp only
  rw [expectTok_cons 58 _ (by decide)]
  dsimp only
  rw [if_pos rfl, parseNat_print sid t ht]

/-- A printed server_addr field parses back. -/
theorem parseServerInfoField_addr (addr : List Nat) (t : List Nat) :
    parseServerInfoField
        (printJsonString (codes ("server_addr")) ++ 58 :: (printJsonString addr ++ t))
      = some ((none, some addr), t) := by
  unfold parseServerInfoField
  rw [parseJsonString_print]
  dsimp only
  rw [expectTok_cons 58 _ (by decide)]
  dsimp only
  rw [if_neg (by decide), if_pos rfl, parseJsonString_print]

/-- A printed ServerInfo object parses back. -/
theorem parseServerInfo_print (si : ServerInfo) (r : List Nat) :
    parseServerInfo (printServerInfo si ++ r) = some (si, r) := by
  have hshape : printServerInfo si ++ r
      = 123 :: (printJsonString (codes ("server_id")) ++ 58 ::
          (natToDigits si.serverId ++ 44 :: (printJsonString (codes ("server_addr")) ++ 58 ::
            (printJsonString si.serverAddr ++ 125 :: r)))) := by
    unfold printServerInfo
    simp [List.append_assoc]
  rw [hshape]
  unfold parseServerInfo
  rw [expectTok_cons 123 _ (by decide)]
  dsimp only
  rw [parseServerInfoField_id si.serverId _
    (by
      intro c hc
      simp only [List.head?_cons, Option.some.injEq] at hc
      subst hc
      rfl)]
  dsimp only
  rw [skipWs_cons 44 _ (by decide)]
  dsimp only
  rw [parseServerInfoField_addr si.serverAddr _]
  dsimp only
  rw [expectTok_cons 125 _ (by decide)]
  dsimp only
  rfl

/-- Printed objects are non-empty. -/
theorem printServerInfo_length_pos (si : ServerInfo) : 0 < (printServerInfo si).length := by
  simp [printServerInfo]

/-- The comma-joined printed elements are at least as long as the element
count. -/
theorem joinComma_print_length (xs : List ServerInfo) :
    xs.length ≤ (joinComma (xs.map printServerInfo)).length := by
  induction xs with
  | nil => simp [joinComma]
  | cons x xs ih =>
    cases xs with
    | nil =>
      simpa [joinComma] using printServerInfo_length_pos x
    | cons y ys =>
      have hpos := printServerInfo_length_pos x
      simp only [List.map_cons, joinComma, List.length_append, List.length_cons] at *
      omega

/-- The element parser undoes the comma-joined element printer, for any
sufficient fuel. -/
theorem parseServerInfoElems_print :
    ∀ (xs : List ServerInfo) (fuel : Nat) (r : List Nat), xs ≠ [] → xs.length ≤ fuel →
      parseServerInfoElems fuel (joinComma (xs.map printServerInfo) ++ 93 :: r)
        = some (xs, r) := by
  intro xs
  induction xs with
  | nil => intro fuel r hne _; exact absurd rfl hne
  | cons x xs ih =>
    intro fuel r _ hlen
    cases fuel with
    | zero => simp at hlen
    | succ fuel =>
      cases xs with
      | nil =>
        simp only [List.map_cons, List.map_nil, joinComma]
        unfold parseServerInfoElems
        rw [parseServerInfo_print]
        dsimp only
        rw [skipWs_cons 93 _ (by decide)]
      | cons y ys =>
        simp only [List.map_cons, joinComma, List.append_assoc, List.cons_append]
        unfold parseServerInfoElems
        rw [show printServerInfo x ++ 44 :: (joinComma (printServerInfo y
              :: ys.map printServerInfo) ++ 93 :: r)
            = printServerInfo x ++ 44 :: (joinComma (printServerInfo y
              :: ys.map printServerInfo) ++ 93 :: r) from rfl]
        rw [parseServerInfo_print]
        dsimp only
        rw [skipWs_cons 44 _ (by decide)]
        dsimp only
        have := ih fuel r (by simp) (by simp at hlen ⊢; omega)
        simp only [List.map_cons] at this
        rw [this]

/-- A printed ServerInfo array parses back. -/
theorem parseServerInfoList_print (xs : List ServerInfo) (r : List Nat) :
    parseServerInfoList (printServerInfoList xs ++ r) = some (xs, r) := by
  cases xs with
  | nil =>
    unfold printServerInfoList parseServerInfoList
    simp only [List.map_nil, joinComma, List.nil_append, List.cons_append]
    rw [expectTok_cons 91 _ (by decide)]
    dsimp only
    rw [skipWs_cons 93 _ (by decide)]
  | cons x xs =>
    unfold printServerInfoList parseServerInfoList
    simp only [List.map_cons, List.cons_append, List.append_assoc, List.singleton_append]
    rw [expectTok_cons 91 _ (by decide)]
    dsimp only
    simp only [List.nil_append]
    have hhead : ∃ c t, joinComma (printServerInfo x :: xs.map printServerInfo) ++ 93 :: r
        = c :: t ∧ c = 123 := by
      cases hx : printServerInfo x with
      | nil =>
        have := printServerInfo_length_pos x
        rw [hx] at this
        simp at this
      | cons c cs =>
        have hc : c = 123 := by
          have : printServerInfo x = 123 :: (printJsonString (codes ("server_id")) ++ 58 ::
              (natToDigits x.serverId ++ 44 :: (printJsonString (codes ("server_addr"))
                ++ 58 :: (printJsonString x.serverAddr ++ [125])))) := by
            unfold printServerInfo
            simp [List.append_assoc]
          rw [hx] at this
          exact (List.cons.injEq _ _ _ _ ▸ this).1
        cases xs with
        | nil =>
          refine ⟨c, cs ++ 93 :: r, ?_, hc⟩
          simp [joinComma, hx]
        | cons y ys =>
          refine ⟨c, cs ++ 44 :: (joinComma (printServerInfo y :: ys.map printServerInfo))
            ++ 93 :: r, ?_, hc⟩
          simp [joinComma, hx]
    obtain ⟨c, t, heq, hc⟩ := hhead
    rw [heq, hc, skipWs_cons 123 _ (by decide)]
    dsimp only
    rw [← hc, ← heq]
    have hlen : (x :: xs).length
        ≤ (joinComma ((x :: xs).map printServerInfo) ++ 93 :: r).length := by
      have h1 := joinComma_print_length (x :: xs)
      simp only [List.length_append, List.length_cons] at h1 ⊢
      omega
    exact parseServerInfoElems_print (x :: xs) _ r (by simp) hlen

/-- A printed old_servers field parses back. -/
theorem parseConfigField_old (xs : List ServerInfo) (t : List Nat) :
    parseConfigField
        (printJsonString (codes ("old_servers")) ++ 58 :: (printServerInfoList xs ++ t))
      = some ((some xs, none), t) := by
  unfold parseConfigField
  rw [parseJsonString_print]
  dsimp only
  rw [expectTok_cons 58 _ (by decide)]
  dsimp only
  rw [if_pos rfl, parseServerInfoList_print]

/-- A printed new_servers field parses back. -/
theorem parseConfigField_new (xs : List ServerInfo) (t : List Nat) :
    parseConfigField
        (printJsonString (codes ("new_servers")) ++ 58 :: (printServerInfoList xs ++ t))
      = some ((none, some xs), t) := by
  unfold parseConfigField
  rw [parseJsonString_print]
  dsimp only
  rw [expectTok_cons 58 _ (by decide)]
  dsimp only
  rw [if_neg (by decide), if_pos rfl, parseServerInfoList_print]

/-- A printed Config object parses back. -/
theorem parseConfig_print (c : Config) (r : List Nat) :
    parseConfig (Config.toData c ++ r) = some (c, r) := by
  have hshape : Config.toData c ++ r
      = 123 :: (printJsonString (codes ("old_servers")) ++ 58 ::
          (printServerInfoList c.oldServers ++ 44 ::
            (printJsonString (codes ("new_servers")) ++ 58 ::
              (printServerInfoList c.newServers ++ 125 :: r)))) := by
    unfold Config.toData
    simp [List.append_assoc]
  rw [hshape]
  unfold parseConfig
  rw [expectTok_cons 123 _ (by decide)]
  dsimp only
  rw [parseConfigField_old]
  dsimp only
  rw [skipWs_cons 44 _ (by decide)]
  dsimp only
  rw [parseConfigField_new]
  dsimp only
  rw [expectTok_cons 125 _ (by decide)]
  dsimp only
  rfl

/-- serde roundtrip: from_data after to_data restores the Config exactly. -/
theorem fromData_toData (c : Config) : Config.fromData (Config.toData c) = some c := by
  unfold Config.fromData
  have h := parseConfig_print c []
  rw [List.append_nil] at h
  rw [h]
  dsimp only
  rw [if_pos (show skipWs ([] : List Nat) = [] from rfl)]

end JsonRoundtrip

/-- C10: Configuration round-trip: for every Configuration value c,
deserializing the bytes produced by serializing c
(Config::from_data(c.to_data())) yields a configuration equal to c after
sorting old_servers and new_servers by server_id. -/
theorem C10_configuration_roundtrip (c : Config) :
    (Config.fromData (Config.toData c)).map Config.sortByServerId
      = some (Config.sortByServerId c) := by
  rw [fromData_toData]
  rfl

section LogLemmas

/-- Filtering a contiguously indexed entry list above a cutoff is dropping
the prefix up to the cutoff. -/
theorem filter_gt_eq_drop (upto : Nat) :
    ∀ (es : List LogEntry) (s : Nat),
      es.map (fun e => e.index) = List.range' s es.length →
      es.filter (fun e => decide (upto < e.index)) = es.drop (upto + 1 - s) := by
  intro es
  induction es with
  | nil => intro s _; simp
  | cons e tl ih =>
    intro s hmap
    simp only [List.map_cons, List.length_cons, List.range'_succ, List.cons.injEq] at hmap
    obtain ⟨hidx, htl⟩ := hmap
    by_cases hle : s ≤ upto
    · have hnot : ¬upto < e.index := by omega
      rw [List.filter_cons, if_neg (by simpa using hnot)]
      have hdrop : upto + 1 - s = (upto + 1 - (s + 1)) + 1 := by omega
      rw [hdrop, List.drop_succ_cons, ih (s + 1) htl]
    · have hlt : upto < e.index := by omega
      rw [List.filter_cons, if_pos (by simpa using hlt)]
      have h0 : upto + 1 - s = 0 := by omega
      rw [h0, List.drop_zero]
      have htl' := ih (s + 1) htl
      have h0' : upto + 1 - (s + 1) = 0 := by omega
      rw [h0', List.drop_zero] at htl'
      rw [htl']

/-- Under contiguity, a non-empty log's last_index is
start_index + length - 1 for any snapshot argument. -/
theorem lastIndex_of_contiguous (l : Log) (x : Nat) (hc : l.Contiguous)
    (hne : l.entries ≠ []) :
    l.lastIndex x = l.startIndex + l.entries.length - 1 := by
  unfold Log.lastIndex
  cases hlast : l.entries.getLast? with
  | none =>
    rw [List.getLast?_eq_none_iff] at hlast
    exact absurd hlast hne
  | some e =>
    have hlen : 0 < l.entries.length := List.length_pos.2 hne
    have h1 : l.entries.getLast? = l.entries[l.entries.length - 1]? :=
      List.getLast?_eq_getElem? l.entries
    have h2 : (l.entries.map (fun e => e.index))[l.entries.length - 1]?
        = some (l.startIndex + (l.entries.length - 1)) := by
      rw [hc]
      rw [List.getElem?_range']
      · simp
      · omega
    rw [List.getElem?_map, h1.symm, hlast] at h2
    simp only [Option.map_some', Option.some.injEq] at h2
    dsimp only
    omega

/-- Under contiguity, an empty log's last_index 0 is start_index - 1. -/
theorem lastIndex_zero_of_empty (l : Log) (he : l.entries = []) :
    l.lastIndex 0 = l.startIndex - 1 := by
  unfold Log.lastIndex
  rw [he]
  simp

end LogLemmas

/-- C8 (corrected): Log::last_index on an empty in-memory list returns
snapshot_last only when snapshot_last is positive and at least
start_index - 1; otherwise it falls back to start_index - 1.  On a
non-empty list it returns the last entry's index. -/
theorem C8_lastIndex_contract (l : Log) (snapshotLast : Nat) :
    (l.entries = [] →
      l.lastIndex snapshotLast =
        if snapshotLast > 0 ∧ snapshotLast ≥ l.startIndex - 1 then snapshotLast
        else l.startIndex - 1) ∧
    (∀ e, l.entries.getLast? = some e → l.lastIndex snapshotLast = e.index) := by
  constructor
  · intro he
    unfold Log.lastIndex
    rw [he]
    rfl
  · intro e he
    unfold Log.lastIndex
    rw [he]

/-- C8 witness: the contract evaluated at two concrete logs. -/
theorem C8_lastIndex_contract_witness :
    Log.lastIndex { entries := [], startIndex := 3 } 0 = 2 ∧
      Log.lastIndex
        { entries := [{ index := 4, term := 1, entryType := 0, data := [] }],
          startIndex := 4 } 9 = 4 := by
  constructor
  · have h := (C8_lastIndex_contract { entries := [], startIndex := 3 } 0).1 rfl
    rw [h]
    decide
  · have h := (C8_lastIndex_contract
      { entries := [{ index := 4, term := 1, entryType := 0, data := [] }],
        startIndex := 4 } 9).2
      { index := 4, term := 1, entryType := 0, data := [] } rfl
    rw [h]

/-- C8 counterexample: the claim as stated says last_index returns
snapshot_last whenever the list is empty, but on an empty log window with
start_index 3 the source returns start_index - 1 = 2, not snapshot_last
= 0. -/
theorem C8_lastIndex_counterexample :
    ¬ Log.lastIndex { entries := [], startIndex := 3 } 0 = 0 := by
  decide

/-- C9 (corrected): Log::truncate_prefix(upto) on a contiguous log removes
exactly the in-memory entries with index ≤ upto and sets start_index to
upto + 1 — provided upto ≥ start_index; when upto < start_index the call
leaves the log unchanged (early return). -/
theorem C9_truncatePrefix_contract (l : Log) (upto : Nat) (hc : l.Contiguous) :
    (upto ≥ l.startIndex →
      (l.truncatePrefix upto).entries
          = l.entries.filter (fun e => decide (upto < e.index))
        ∧ (l.truncatePrefix upto).startIndex = upto + 1) ∧
    (upto < l.startIndex → l.truncatePrefix upto = l) := by
  constructor
  · intro hge
    unfold Log.truncatePrefix
    rw [if_neg (by omega)]
    dsimp only
    by_cases hemp : l.entries = []
    · have hlast := lastIndex_zero_of_empty l hemp
      rw [hlast, if_pos (by omega)]
      exact ⟨by simp [hemp], rfl⟩
    · have hlast := lastIndex_of_contiguous l 0 hc hemp
      have hlen : 0 < l.entries.length := List.length_pos.2 hemp
      rw [hlast]
      by_cases hcl : l.startIndex + l.entries.length - 1 ≤ upto
      · rw [if_pos hcl]
        refine ⟨?_, rfl⟩
        have hfd := filter_gt_eq_drop upto l.entries l.startIndex hc
        have hge2 : l.entries.length ≤ upto + 1 - l.startIndex := by omega
        rw [hfd, List.drop_eq_nil_of_le hge2]
      · rw [if_neg hcl,
          if_pos (show 0 < upto - l.startIndex + 1
            ∧ upto - l.startIndex + 1 ≤ l.entries.length by omega)]
        refine ⟨?_, rfl⟩
        have hfd := filter_gt_eq_drop upto l.entries l.startIndex hc
        have heq : upto + 1 - l.startIndex = upto - l.startIndex + 1 := by omega
        rw [hfd, heq]
  · intro hlt
    unfold Log.truncatePrefix
    rw [if_pos hlt]

/-- C9 witness: the contract evaluated at a concrete log. -/
theorem C9_truncatePrefix_contract_witness :
    (Log.truncatePrefix
        { entries :=
            [{ index := 3, term := 1, entryType := 0, data := [] },
             { index := 4, term := 1, entryType := 0, data := [] },
             { index := 5, term := 2, entryType := 0, data := [] }],
          startIndex := 3 } 4).entries
        = [{ index := 5, term := 2, entryType := 0, data := [] }] ∧
      (Log.truncatePrefix
        { entries :=
            [{ index := 3, term := 1, entryType := 0, data := [] },
             { index := 4, term := 1, entryType := 0, data := [] },
             { index := 5, term := 2, entryType := 0, data := [] }],
          startIndex := 3 } 4).startIndex = 5 := by
  have h := (C9_truncatePrefix_contract
    { entries :=
        [{ index := 3, term := 1, entryType := 0, data := [] },
         { index := 4, term := 1, entryType := 0, data := [] },
         { index := 5, term := 2, entryType := 0, data := [] }],
      startIndex := 3 } 4 (by decide)).1 (by decide)
  exact ⟨by rw [h.1]; decide, h.2⟩

/-- C9 counterexample: the claim as stated sets start_index to upto + 1 for
every upto, but for upto = 1 below start_index = 3 the source returns
without touching the log, leaving start_index at 3 rather than 2. -/
theorem C9_truncatePrefix_counterexample :
    ¬ (Log.truncatePrefix { entries := [], startIndex := 3 } 1).startIndex = 2 := by
  decide

section ResponseBookkeeping

/-- Looking a peer up after an id-preserving in-place update. -/
theorem findPeer_updatePeer (ps : List Peer) (i : Nat) (f : Peer → Peer)
    (hf : ∀ q, (f q).id = q.id) :
    PeerManager.findPeer (PeerManager.updatePeer ps i f) i
      = (PeerManager.findPeer ps i).map f := by
  induction ps with
  | nil => rfl
  | cons q qs ih =>
    unfold PeerManager.findPeer PeerManager.updatePeer at *
    by_cases hq : q.id == i
    · simp only [List.map_cons, if_pos hq, List.find?_cons]
      have : ((f q).id == i) = true := by
        rw [hf q]
        exact hq
      rw [this, hq]
      rfl
    · simp only [List.map_cons, if_neg hq, List.find?_cons]
      rw [Bool.of_not_eq_true hq]
      exact ih

/-- C5: AppendEntries response bookkeeping: for every peer, upon a
successful (success = true, non-higher-term) AppendEntries response the
leader sets that peer's match_index to prev_log_index + number of entries
sent and next_index to match_index + 1; upon a rejection (success = false
with term not greater than current_term) it decrements next_index by one,
but next_index never drops below 1. -/
theorem C5_appendEntries_response_bookkeeping
    (env : Env) (peerId : Nat) (heartbeat : Bool) (s : RaftState) (p : Peer)
    (r : AppendEntriesResponse)
    (hp : PeerManager.findPeer s.peers peerId = some p)
    (hsnap : ¬(¬heartbeat ∧ p.nextIndex < s.log.startIndex))
    (hresp : env.appendResp s.seq = some r)
    (hterm : r.term ≤ s.currentTerm) :
    ∃ p', PeerManager.findPeer (s.appendOneEntryToPeer env peerId heartbeat).peers peerId
        = some p'
      ∧ (r.success = true →
          p'.matchIndex = (p.nextIndex - 1)
              + (if heartbeat then [] else s.log.packEntries p.nextIndex).length
            ∧ p'.nextIndex = p'.matchIndex + 1)
      ∧ (r.success = false →
          p'.nextIndex = (if 1 < p.nextIndex then p.nextIndex - 1 else p.nextIndex)
            ∧ (1 ≤ p.nextIndex → 1 ≤ p'.nextIndex)) := by
  unfold RaftState.appendOneEntryToPeer
  rw [hp]
  dsimp only
  rw [if_neg hsnap, hresp]
  dsimp only
  rw [if_neg (by omega)]
  dsimp only
  rw [findPeer_updatePeer s.peers peerId _
    (by
      intro q
      by_cases hs : r.success
      · simp [hs]
      · by_cases hn : q.nextIndex > 1 <;> simp [hs, hn]), hp]
  refine ⟨_, rfl, ?_, ?_⟩
  · intro hs
    dsimp only
    rw [if_pos hs]
    exact ⟨rfl, rfl⟩
  · intro hs
    dsimp only
    rw [if_neg (by rw [hs]; exact Bool.false_ne_true)]
    by_cases hn : p.nextIndex > 1
    · rw [if_pos hn, if_pos hn]
      refine ⟨rfl, fun _ => ?_⟩
      show 1 ≤ p.nextIndex - 1
      omega
    · rw [if_neg hn, if_neg hn]
      exact ⟨rfl, fun h1 => h1⟩

/-- C5 witness: a success response at one concrete leader state and a
rejection response at another. -/
theorem C5_appendEntries_response_bookkeeping_witness :
    (∃ p', PeerManager.findPeer
        ((({ witnessBase with
              state := NodeRole.leader, currentTerm := 2,
              log := ⟨[⟨1, 2, 1, NONE_DATA⟩], 1⟩ } : RaftState)).appendOneEntryToPeer
          { envNone with appendResp := fun _ => some ⟨2, true⟩ }
          2 false).peers 2 = some p'
      ∧ p'.matchIndex = 1 ∧ p'.nextIndex = 2) ∧
    (∃ p', PeerManager.findPeer
        ((({ witnessBase with
              state := NodeRole.leader, currentTerm := 2,
              peers := [{ Peer.new 2 [98] with nextIndex := 1 }] } : RaftState)).appendOneEntryToPeer
          { envNone with appendResp := fun _ => some ⟨2, false⟩ }
          2 false).peers 2 = some p'
      ∧ p'.nextIndex = 1) := by
  constructor
  · obtain ⟨p', hfind, hsucc, _⟩ := C5_appendEntries_response_bookkeeping
      { envNone with appendResp := fun _ => some ⟨2, true⟩ } 2 false
      ({ witnessBase with
          state := NodeRole.leader, currentTerm := 2,
          log := ⟨[⟨1, 2, 1, NONE_DATA⟩], 1⟩ })
      (Peer.new 2 [98]) ⟨2, true⟩
      (by decide) (by decide) rfl (by decide)
    obtain ⟨hm, hn⟩ := hsucc rfl
    refine ⟨p', hfind, ?_, ?_⟩
    · rw [hm]; decide
    · rw [hn, hm]; decide
  · obtain ⟨p', hfind, _, hfail⟩ := C5_appendEntries_response_bookkeeping
      { envNone with appendResp := fun _ => some ⟨2, false⟩ } 2 false
      ({ witnessBase with
          state := NodeRole.leader, currentTerm := 2,
          peers := [{ Peer.new 2 [98] with nextIndex := 1 }] })
      ({ Peer.new 2 [98] with nextIndex := 1 }) ⟨2, false⟩
      (by decide) (by decide) rfl (by decide)
    obtain ⟨hn, _⟩ := hfail rfl
    refine ⟨p', hfind, ?_⟩
    rw [hn]
    decide

end ResponseBookkeeping

section LeaderCommit

/-- C2: Leader commit advancement: when the leader computes a new commit
candidate N from the quorum match indexes, it advances commit_index to N
only if N > commit_index and either the log entry at index N has term equal
to current_term, or N ≤ snapshot.last_included_index; otherwise
commit_index is left unchanged. -/
theorem C2_leader_commit_advancement (fuel : Nat) (env : Env) (s : RaftState) :
    ((leaderAdvanceCommitIndex (fuel + 1) env s).commitIndex ≠ s.commitIndex →
      (leaderAdvanceCommitIndex (fuel + 1) env s).commitIndex
          = PeerManager.quoramMatchIndex s.peers s.nodeConfigState
              (s.log.lastIndex s.snapshotLastIncludedIndex)
        ∧ PeerManager.quoramMatchIndex s.peers s.nodeConfigState
              (s.log.lastIndex s.snapshotLastIncludedIndex) > s.commitIndex
        ∧ ((∃ e, s.log.entry (PeerManager.quoramMatchIndex s.peers s.nodeConfigState
                (s.log.lastIndex s.snapshotLastIncludedIndex)) = some e
              ∧ e.term = s.currentTerm)
            ∨ PeerManager.quoramMatchIndex s.peers s.nodeConfigState
                (s.log.lastIndex s.snapshotLastIncludedIndex)
              ≤ s.snapshotLastIncludedIndex)) ∧
    (¬(PeerManager.quoramMatchIndex s.peers s.nodeConfigState
          (s.log.lastIndex s.snapshotLastIncludedIndex) > s.commitIndex
        ∧ ((∃ e, s.log.entry (PeerManager.quoramMatchIndex s.peers s.nodeConfigState
                (s.log.lastIndex s.snapshotLastIncludedIndex)) = some e
              ∧ e.term = s.currentTerm)
            ∨ PeerManager.quoramMatchIndex s.peers s.nodeConfigState
                (s.log.lastIndex s.snapshotLastIncludedIndex)
              ≤ s.snapshotLastIncludedIndex)) →
      (leaderAdvanceCommitIndex (fuel + 1) env s).commitIndex = s.commitIndex) := by
  rw [leaderAdvanceCommitIndex]
  by_cases hstate : s.state ≠ NodeRole.leader
  · rw [if_pos hstate]
    exact ⟨fun h => absurd rfl h, fun _ => rfl⟩
  · rw [if_neg hstate]
    dsimp only
    by_cases hN : PeerManager.quoramMatchIndex s.peers s.nodeConfigState
        (s.log.lastIndex s.snapshotLastIncludedIndex) > s.commitIndex
    · rw [if_pos hN]
      cases hentry : s.log.entry (PeerManager.quoramMatchIndex s.peers s.nodeConfigState
          (s.log.lastIndex s.snapshotLastIncludedIndex)) with
      | some e =>
        by_cases hterm : e.term = s.currentTerm
        · rw [if_neg (by simp [hterm])]
          exact ⟨fun _ => ⟨rfl, hN, Or.inl ⟨e, rfl, hterm⟩⟩,
            fun hno => absurd ⟨hN, Or.inl ⟨e, rfl, hterm⟩⟩ hno⟩
        · rw [if_pos (by simp [hterm])]
          refine ⟨fun h => absurd rfl h, fun _ => rfl⟩
      | none =>
        by_cases hsnap : PeerManager.quoramMatchIndex s.peers s.nodeConfigState
            (s.log.lastIndex s.snapshotLastIncludedIndex) ≤ s.snapshotLastIncludedIndex
        · rw [if_neg (by simp [hsnap])]
          exact ⟨fun _ => ⟨rfl, hN, Or.inr hsnap⟩,
            fun hno => absurd ⟨hN, Or.inr hsnap⟩ hno⟩
        · rw [if_pos (by simp [hsnap])]
          refine ⟨fun h => absurd rfl h, fun _ => rfl⟩
    · rw [if_neg hN]
      exact ⟨fun h => absurd rfl h, fun _ => rfl⟩

/-- C2 witness: on a concrete leader state with the entry at the quorum
index carrying the current term, commit_index advances to the quorum
index. -/
theorem C2_leader_commit_advancement_witness :
    (leaderAdvanceCommitIndex (5 + 1) envNone witnessLeader).commitIndex = 1
      ∧ witnessLeader.commitIndex = 0 := by
  obtain ⟨h1, _, _⟩ := (C2_leader_commit_advancement 5 envNone witnessLeader).1 (by decide)
  rw [h1]
  exact ⟨by decide, rfl⟩

end LeaderCommit

section SetConfiguration

/-- C7: SetConfiguration rejection: handle_set_configuration_rpc returns
success = false whenever the node is not Leader, or the requested
new_servers list is empty, or the current configuration is joint, or the
most recent Configuration entry in the in-memory log is joint; in each of
these cases the log and the current configuration are left unchanged. -/
theorem C7_setConfiguration_rejection (fuel : Nat) (env : Env)
    (req : SetConfigurationRequest) (s : RaftState)
    (h : s.state ≠ NodeRole.leader ∨ req.newServers = []
      ∨ s.currentConfig.isJoint = true
      ∨ (∃ c, s.log.lastConfiguration = some c ∧ c.isJoint = true)) :
    (handleSetConfigurationRpc fuel env req s).1.success = false
      ∧ (handleSetConfigurationRpc fuel env req s).2.log = s.log
      ∧ (handleSetConfigurationRpc fuel env req s).2.currentConfig = s.currentConfig := by
  unfold handleSetConfigurationRpc
  by_cases c1 : s.state ≠ NodeRole.leader
  · rw [if_pos c1]
    exact ⟨rfl, rfl, rfl⟩
  · rw [if_neg c1]
    by_cases c2 : req.newServers = []
    · rw [if_pos c2]
      exact ⟨rfl, rfl, rfl⟩
    · rw [if_neg c2]
      by_cases c3 : s.currentConfig.isJoint = true
      · rw [if_pos c3]
        exact ⟨rfl, rfl, rfl⟩
      · rw [if_neg c3]
        by_cases c4 : (match s.log.lastConfiguration with
            | some c => c.isJoint
            | none => false) = true
        · rw [if_pos c4]
          exact ⟨rfl, rfl, rfl⟩
        · exfalso
          rcases h with h' | h' | h' | ⟨c, hc, hj⟩
          · exact c1 h'
          · exact c2 h'
          · exact c3 h'
          · rw [hc] at c4
            exact c4 hj

/-- C7 witness: a follower rejects SetConfiguration and keeps its log and
configuration. -/
theorem C7_setConfiguration_rejection_witness :
    (handleSetConfigurationRpc 5 envNone
        { newServers := cfg123.newServers } witnessBase).1.success = false
      ∧ (handleSetConfigurationRpc 5 envNone
          { newServers := cfg123.newServers } witnessBase).2.log = witnessBase.log
      ∧ (handleSetConfigurationRpc 5 envNone
          { newServers := cfg123.newServers } witnessBase).2.currentConfig
        = witnessBase.currentConfig :=
  C7_setConfiguration_rejection 5 envNone { newServers := cfg123.newServers }
    witnessBase (Or.inl (by decide))

end SetConfiguration

section RequestVote

/-- step_down leaves the replica's identity, log, snapshot bounds,
configuration, peers and commit state untouched. -/
theorem stepDown_frame (t : Nat) (s : RaftState) :
    (s.stepDown t).serverId = s.serverId ∧ (s.stepDown t).log = s.log
      ∧ (s.stepDown t).snapshotLastIncludedIndex = s.snapshotLastIncludedIndex
      ∧ (s.stepDown t).snapshotLastIncludedTerm = s.snapshotLastIncludedTerm
      ∧ (s.stepDown t).currentConfig = s.currentConfig
      ∧ (s.stepDown t).peers = s.peers
      ∧ (s.stepDown t).commitIndex = s.commitIndex
      ∧ (s.stepDown t).nodeConfigState = s.nodeConfigState := by
  unfold RaftState.stepDown
  dsimp only
  split_ifs <;> exact ⟨rfl, rfl, rfl, rfl, rfl, rfl, rfl, rfl⟩

/-- step_down adopts the larger of the two terms. -/
theorem stepDown_currentTerm (t : Nat) (s : RaftState) :
    (s.stepDown t).currentTerm = max s.currentTerm t := by
  unfold RaftState.stepDown
  dsimp only
  split_ifs <;> first | omega | (dsimp only; omega)

/-- step_down resets voted_for exactly when the term increases. -/
theorem stepDown_votedFor (t : Nat) (s : RaftState) :
    (s.stepDown t).votedFor
      = if s.currentTerm < t then NONE_SERVER_ID else s.votedFor := by
  unfold RaftState.stepDown
  dsimp only
  split_ifs <;> first | rfl | omega

/-- step_down resets the election timer unless it rejects a stale term. -/
theorem stepDown_electionTimerResets (t : Nat) (s : RaftState) :
    (s.stepDown t).electionTimerResets
      = if t < s.currentTerm then s.electionTimerResets
        else s.electionTimerResets + 1 := by
  unfold RaftState.stepDown
  dsimp only
  split_ifs <;> first | rfl | omega

/-- Case analysis of handle_request_vote_rpc: a granted vote pins the
voter's term to the request's term, records the candidate, and happened
under the up-to-date-log, free-ballot and membership conditions with the
follower-reset effects; a refusal either leaves term and ballot alone or is
exactly a step_down to a strictly higher term; the server id never changes
and the term never decreases. -/
theorem handleRequestVoteRpc_spec (req : RequestVoteRequest) (s : RaftState) :
    ((RaftState.handleRequestVoteRpc req s).1.voteGranted = true →
      (RaftState.handleRequestVoteRpc req s).2.currentTerm = req.term
        ∧ (RaftState.handleRequestVoteRpc req s).2.votedFor = req.candidateId
        ∧ (req.term > s.currentTerm
            ∨ (req.term = s.currentTerm
                ∧ (s.votedFor = NONE_SERVER_ID ∨ s.votedFor = req.candidateId)))
        ∧ (req.lastLogTerm > s.log.lastTerm s.snapshotLastIncludedTerm
            ∨ (req.lastLogTerm = s.log.lastTerm s.snapshotLastIncludedTerm
                ∧ req.lastLogIndex ≥ s.log.lastIndex s.snapshotLastIncludedIndex))
        ∧ (s.currentConfig.allIdsContains req.candidateId = true
            ∨ s.currentConfig.isEmpty = true)
        ∧ (RaftState.handleRequestVoteRpc req s).2.state = NodeRole.follower
        ∧ (RaftState.handleRequestVoteRpc req s).2.leaderId = NONE_SERVER_ID
        ∧ (RaftState.handleRequestVoteRpc req s).2.electionTimerResets
            > s.electionTimerResets) ∧
    ((RaftState.handleRequestVoteRpc req s).1.voteGranted = false →
      ((RaftState.handleRequestVoteRpc req s).2.currentTerm = s.currentTerm
          ∧ (RaftState.handleRequestVoteRpc req s).2.votedFor = s.votedFor)
        ∨ ((RaftState.handleRequestVoteRpc req s).2.currentTerm = req.term
            ∧ req.term > s.currentTerm
            ∧ (RaftState.handleRequestVoteRpc req s).2.votedFor = NONE_SERVER_ID)) ∧
    (RaftState.handleRequestVoteRpc req s).2.serverId = s.serverId ∧
    s.currentTerm ≤ (RaftState.handleRequestVoteRpc req s).2.currentTerm := by
  unfold RaftState.handleRequestVoteRpc
  by_cases h1 : req.term < s.currentTerm
  · rw [if_pos h1]
    exact ⟨fun hg => absurd hg (by simp), fun _ => Or.inl ⟨rfl, rfl⟩, rfl, Nat.le_refl _⟩
  · rw [if_neg h1]
    by_cases hgt : req.term > s.currentTerm
    · rw [if_pos hgt]
      obtain ⟨hsid, hlog, hsli, hslt, hcfg, _, _, _⟩ := stepDown_frame req.term s
      have hterm := stepDown_currentTerm req.term s
      have hvoted := stepDown_votedFor req.term s
      have hreset := stepDown_electionTimerResets req.term s
      rw [if_pos (by omega)] at hvoted
      rw [if_neg (by omega)] at hreset
      by_cases hcond : (req.lastLogTerm > (s.stepDown req.term).log.lastTerm
            (s.stepDown req.term).snapshotLastIncludedTerm
          ∨ (req.lastLogTerm = (s.stepDown req.term).log.lastTerm
              (s.stepDown req.term).snapshotLastIncludedTerm
            ∧ req.lastLogIndex ≥ (s.stepDown req.term).log.lastIndex
              (s.stepDown req.term).snapshotLastIncludedIndex))
        ∧ ((s.stepDown req.term).votedFor = NONE_SERVER_ID
          ∨ (s.stepDown req.term).votedFor = req.candidateId)
      · rw [if_pos hcond]
        by_cases hmem : ¬(s.stepDown req.term).currentConfig.allIdsContains
              req.candidateId = true
            ∧ ¬(s.stepDown req.term).currentConfig.isEmpty = true
        · rw [if_pos hmem]
          dsimp only
          refine ⟨fun hg => absurd hg (by simp), fun _ => Or.inr ⟨by omega, hgt, hvoted⟩,
            hsid, by omega⟩
        · rw [if_neg hmem]
          dsimp only
          refine ⟨fun _ => ?_, fun hg => absurd hg (by simp), hsid, by omega⟩
          rw [hlog, hsli, hslt] at hcond
          rw [hcfg] at hmem
          refine ⟨by omega, rfl, Or.inl hgt, hcond.1, ?_, rfl, rfl, by omega⟩
          by_cases ha : s.currentConfig.allIdsContains req.candidateId = true
          · exact Or.inl ha
          · by_cases hb : s.currentConfig.isEmpty = true
            · exact Or.inr hb
            · exact absurd ⟨ha, hb⟩ hmem
      · rw [if_neg hcond]
        dsimp only
        refine ⟨fun hg => absurd hg (by simp), fun _ => Or.inr ⟨by omega, hgt, hvoted⟩,
          hsid, by omega⟩
    · rw [if_neg hgt]
      by_cases hcond : (req.lastLogTerm > s.log.lastTerm s.snapshotLastIncludedTerm
          ∨ (req.lastLogTerm = s.log.lastTerm s.snapshotLastIncludedTerm
            ∧ req.lastLogIndex ≥ s.log.lastIndex s.snapshotLastIncludedIndex))
        ∧ (s.votedFor = NONE_SERVER_ID ∨ s.votedFor = req.candidateId)
      · rw [if_pos hcond]
        by_cases hmem : ¬s.currentConfig.allIdsContains req.candidateId = true
            ∧ ¬s.currentConfig.isEmpty = true
        · rw [if_pos hmem]
          dsimp only
          exact ⟨fun hg => absurd hg (by simp), fun _ => Or.inl ⟨rfl, rfl⟩,
            rfl, Nat.le_refl _⟩
        · rw [if_neg hmem]
          dsimp only
          refine ⟨fun _ => ?_, fun hg => absurd hg (by simp),
            rfl, Nat.le_refl _⟩
          refine ⟨by omega, rfl, Or.inr ⟨by omega, hcond.2⟩, hcond.1, ?_,
            rfl, rfl, by omega⟩
          by_cases ha : s.currentConfig.allIdsContains req.candidateId = true
          · exact Or.inl ha
          · by_cases hb : s.currentConfig.isEmpty = true
            · exact Or.inr hb
            · exact absurd ⟨ha, hb⟩ hmem
      · rw [if_neg hcond]
        dsimp only
        exact ⟨fun hg => absurd hg (by simp), fun _ => Or.inl ⟨rfl, rfl⟩,
          rfl, Nat.le_refl _⟩

/-- C6: Vote-grant rule: handle_request_vote_rpc grants a vote only if the
candidate's log is at least as up-to-date as the local log, the decision
time voted_for (after a possible step_down to a higher request term) is 0
or the candidate's id, and the candidate is a member of the current
configuration (unless the configuration is empty); on a grant, voted_for is
set to the candidate, the node becomes Follower, leader_id is cleared, and
the election timer is reset. -/
theorem C6_vote_grant_rule (req : RequestVoteRequest) (s : RaftState)
    (hg : (RaftState.handleRequestVoteRpc req s).1.voteGranted = true) :
    (req.lastLogTerm > s.log.lastTerm s.snapshotLastIncludedTerm
        ∨ (req.lastLogTerm = s.log.lastTerm s.snapshotLastIncludedTerm
            ∧ req.lastLogIndex ≥ s.log.lastIndex s.snapshotLastIncludedIndex))
      ∧ ((if req.term > s.currentTerm then NONE_SERVER_ID else s.votedFor)
            = NONE_SERVER_ID
          ∨ (if req.term > s.currentTerm then NONE_SERVER_ID else s.votedFor)
            = req.candidateId)
      ∧ (s.currentConfig.allIdsContains req.candidateId = true
          ∨ s.currentConfig.isEmpty = true)
      ∧ (RaftState.handleRequestVoteRpc req s).2.votedFor = req.candidateId
      ∧ (RaftState.handleRequestVoteRpc req s).2.state = NodeRole.follower
      ∧ (RaftState.handleRequestVoteRpc req s).2.leaderId = NONE_SERVER_ID
      ∧ (RaftState.handleRequestVoteRpc req s).2.electionTimerResets
          > s.electionTimerResets := by
  obtain ⟨_, hvoted, hdisj, hlogOk, hmem, hstate, hleader, hreset⟩ :=
    (handleRequestVoteRpc_spec req s).1 hg
  refine ⟨hlogOk, ?_, hmem, hvoted, hstate, hleader, hreset⟩
  by_cases hgt : req.term > s.currentTerm
  · rw [if_pos hgt]
    exact Or.inl rfl
  · rw [if_neg hgt]
    rcases hdisj with h | h
    · exact absurd h hgt
    · exact h.2

/-- C6 witness: node 1 grants a vote to candidate 2 for term 2. -/
theorem C6_vote_grant_rule_witness :
    (RaftState.handleRequestVoteRpc ⟨2, 2, 0, 0⟩ witnessBase).1.voteGranted = true
      ∧ (RaftState.handleRequestVoteRpc ⟨2, 2, 0, 0⟩ witnessBase).2.votedFor = 2
      ∧ (RaftState.handleRequestVoteRpc ⟨2, 2, 0, 0⟩ witnessBase).2.state
          = NodeRole.follower
      ∧ (RaftState.handleRequestVoteRpc ⟨2, 2, 0, 0⟩ witnessBase).2.leaderId = 0 := by
  have h := C6_vote_grant_rule ⟨2, 2, 0, 0⟩ witnessBase (by decide)
  exact ⟨by decide, h.2.2.2.1, h.2.2.2.2.1, h.2.2.2.2.2.1⟩

/-- C4 (corrected): an operation that increases the persisted current_term
never leaves a vote from an earlier term behind, but it does not always
reset voted_for to 0: step_down (adopting a higher observed term,
consensus.rs lines 1414-1417) resets voted_for to none, while
handle_election_timeout (consensus.rs lines 1162-1168, whose persisted
metadata update is electionTimeoutLocal) increments current_term and sets
voted_for to the replica's own id — its vote for itself in the new
term. -/
theorem C4_term_advance_votedFor (t : Nat) (s : RaftState) :
    ((s.stepDown t).currentTerm > s.currentTerm →
        (s.stepDown t).votedFor = NONE_SERVER_ID)
      ∧ s.electionTimeoutLocal.currentTerm = s.currentTerm + 1
      ∧ s.electionTimeoutLocal.votedFor = s.serverId := by
  refine ⟨?_, rfl, rfl⟩
  intro h
  have hterm := stepDown_currentTerm t s
  have hv := stepDown_votedFor t s
  rw [if_pos (by omega)] at hv
  exact hv

/-- C4 witness: the two term-advancing operations evaluated at node 1. -/
theorem C4_term_advance_votedFor_witness :
    (witnessBase.stepDown 5).votedFor = NONE_SERVER_ID
      ∧ witnessBase.electionTimeoutLocal.votedFor = 1 := by
  refine ⟨(C4_term_advance_votedFor 5 witnessBase).1 (by decide), ?_⟩
  have h := (C4_term_advance_votedFor 5 witnessBase).2.2
  rw [h]
  rfl

/-- C4 counterexample: the claim as stated requires every operation that
increases the persisted current_term to reset voted_for to 0, but
handle_election_timeout increments the term and persists voted_for as the
node's own id (1 here), never 0. -/
theorem C4_votedFor_counterexample :
    (handleElectionTimeout 5 envNone witnessBase).currentTerm
        > witnessBase.currentTerm
      ∧ ¬(handleElectionTimeout 5 envNone witnessBase).votedFor = 0 := by
  constructor <;> decide

end RequestVote

section FollowerCommit

/-- Applying a configuration to the internal membership state never touches
the log, the commit cursor, the apply cursor or the applied-entry
history. -/
theorem applyConfig_frame (cfg : Config) (committed : Bool) (s : RaftState) :
    (s.applyConfigurationToInternalState cfg committed).log = s.log
      ∧ (s.applyConfigurationToInternalState cfg committed).commitIndex = s.commitIndex
      ∧ (s.applyConfigurationToInternalState cfg committed).lastApplied = s.lastApplied
      ∧ (s.applyConfigurationToInternalState cfg committed).appliedLog = s.appliedLog
      ∧ (s.applyConfigurationToInternalState cfg committed).snapshotLastIncludedIndex
          = s.snapshotLastIncludedIndex := by
  unfold RaftState.applyConfigurationToInternalState RaftState.updatePeerConfigStates
    RaftState.shutdown
  dsimp only
  split_ifs <;> exact ⟨rfl, rfl, rfl, rfl, rfl⟩

/-- One found, not-yet-applied index steps through the follower apply loop:
the log and commit cursor stay, the apply cursor moves to the index, and
the entry is recorded as applied. -/
theorem followerApplyOne_found (m : RaftState) (i : Nat) (e : LogEntry)
    (hskip : m.lastApplied < i) (hfound : m.log.entry i = some e) :
    ∃ m', m.followerApplyOne i = (m', true)
      ∧ m'.log = m.log ∧ m'.commitIndex = m.commitIndex ∧ m'.lastApplied = i
      ∧ m'.appliedLog = m.appliedLog ++ [e] := by
  unfold RaftState.followerApplyOne
  rw [if_neg (by omega), hfound]
  dsimp only
  cases hk : (entryTypeFromInt e.entryType).getD EntryKind.data with
  | data => exact ⟨_, rfl, rfl, rfl, rfl, rfl⟩
  | noop => exact ⟨_, rfl, rfl, rfl, rfl, rfl⟩
  | configuration =>
    cases hc : Config.fromData e.data with
    | none => exact ⟨_, rfl, rfl, rfl, rfl, rfl⟩
    | some c =>
      obtain ⟨h1, h2, h3, h4, _⟩ := applyConfig_frame c true m
      refine ⟨_, rfl, by dsimp only; rw [h1], by dsimp only; rw [h2], rfl, ?_⟩
      dsimp only
      rw [h4]

/-- The follower apply loop over a contiguous index range above the apply
cursor, when every index is found in the log: the log and commit cursor
stay, the apply cursor ends at the top of the range, and exactly the
range's entries are appended to the applied history in order. -/
theorem followerApplyLoop_range :
    ∀ (k : Nat) (m : RaftState) (a : Nat),
      m.lastApplied ≤ a →
      (∀ i, a < i → i < a + 1 + k → (m.log.entry i).isSome = true) →
      (m.followerApplyLoop (List.range' (a + 1) k)).commitIndex = m.commitIndex
        ∧ (m.followerApplyLoop (List.range' (a + 1) k)).log = m.log
        ∧ (m.followerApplyLoop (List.range' (a + 1) k)).lastApplied
            = (if k = 0 then m.lastApplied else a + k)
        ∧ (m.followerApplyLoop (List.range' (a + 1) k)).appliedLog
            = m.appliedLog ++ (List.range' (a + 1) k).filterMap m.log.entry := by
  intro k
  induction k with
  | zero =>
    intro m a _ _
    exact ⟨rfl, rfl, rfl, by simp [RaftState.followerApplyLoop]⟩
  | succ k ih =>
    intro m a hla hfound
    have hsome : (m.log.entry (a + 1)).isSome = true :=
      hfound (a + 1) (by omega) (by omega)
    obtain ⟨e, he⟩ := Option.isSome_iff_exists.1 hsome
    obtain ⟨m', hone, hlog, hcommit, hlast, happ⟩ :=
      followerApplyOne_found m (a + 1) e (by omega) he
    rw [List.range'_succ]
    unfold RaftState.followerApplyLoop
    rw [hone]
    dsimp only
    obtain ⟨ih1, ih2, ih3, ih4⟩ := ih m' (a + 1) (by omega)
      (by
        intro i h1 h2
        rw [hlog]
        exact hfound i (by omega) (by omega))
    refine ⟨by rw [ih1, hcommit], by rw [ih2, hlog], ?_, ?_⟩
    · rw [ih3]
      by_cases hk : k = 0
      · subst hk
        simp [hlast]
      · rw [if_neg hk, if_neg (by omega)]
        omega
    · rw [ih4, happ, hlog, List.filterMap_cons, he]
      simp [List.append_assoc]

/-- Specification of follower_advance_commit_index on a well-formed state:
with leader_commit above commit_index, commit_index becomes
min(leader_commit, last_index) and exactly the newly committed entries are
applied in index order. -/
theorem followerAdvance_spec (lc : Nat) (m : RaftState)
    (hcontig : m.log.Contiguous)
    (hla : m.lastApplied ≤ m.commitIndex)
    (hcb : m.commitIndex ≤ m.log.lastIndex m.snapshotLastIncludedIndex)
    (hstart : m.log.startIndex ≤ m.commitIndex + 1)
    (hsnap : m.log.startIndex = m.snapshotLastIncludedIndex + 1)
    (hlc : lc > m.commitIndex) :
    (m.followerAdvanceCommitIndex lc).commitIndex
        = min lc (m.log.lastIndex m.snapshotLastIncludedIndex)
      ∧ (m.followerAdvanceCommitIndex lc).appliedLog
          = m.appliedLog
            ++ (List.range' (m.commitIndex + 1)
                (min lc (m.log.lastIndex m.snapshotLastIncludedIndex)
                  - m.commitIndex)).filterMap m.log.entry := by
  unfold RaftState.followerAdvanceCommitIndex
  dsimp only
  by_cases hadv : min lc (m.log.lastIndex m.snapshotLastIncludedIndex) > m.commitIndex
  · rw [if_pos hadv]
    dsimp only
    have hne : m.log.entries ≠ [] := by
      intro hemp
      have hfall : m.log.lastIndex m.snapshotLastIncludedIndex = m.log.startIndex - 1 := by
        unfold Log.lastIndex
        rw [hemp, List.getLast?_nil]
        dsimp only
        split_ifs with hcase
        · omega
        · rfl
      omega
    have hlen := lastIndex_of_contiguous m.log m.snapshotLastIncludedIndex hcontig hne
    have hpos : 0 < m.log.entries.length := List.length_pos.2 hne
    have hfound : ∀ i, m.commitIndex < i →
        i < m.commitIndex + 1
          + (min lc (m.log.lastIndex m.snapshotLastIncludedIndex) - m.commitIndex) →
        (m.log.entry i).isSome = true := by
      intro i h1 h2
      unfold Log.entry
      split_ifs with hz hlt
      · rfl
      · rfl
      · have hidx : i - m.log.startIndex < m.log.entries.length := by omega
        rw [List.get?_eq_getElem?, List.getElem?_eq_getElem hidx]
        rfl
    obtain ⟨_, _, h3, h4⟩ :=
      followerApplyLoop_range
        (min lc (m.log.lastIndex m.snapshotLastIncludedIndex) - m.commitIndex)
        m m.commitIndex hla hfound
    rw [if_neg (by omega)] at h3
    constructor
    · rw [h3]
      omega
    · rw [h4]
  · rw [if_neg hadv]
    have hmin : min lc (m.log.lastIndex m.snapshotLastIncludedIndex) = m.commitIndex := by
      omega
    rw [hmin]
    constructor
    · rfl
    · simp

/-- C3: Follower commit advancement: in the AppendEntries receiver, when
the request is accepted (checks passed, entries reconciled — the
appendEntriesCheckAndAppend phase yielding the intermediate state) and the
request's leader_commit exceeds the local commit_index, the handler returns
success and afterwards commit_index equals min(leader_commit, last_index)
and exactly the newly committed entries have been applied, in index order
(Configuration entries going through their commit effects inside the
loop). -/
theorem C3_follower_commit_advancement (req : AppendEntriesRequest)
    (s sMid : RaftState)
    (hterm : ¬req.term < s.currentTerm)
    (hphase : s.appendEntriesCheckAndAppend req = (sMid, true))
    (hcontig : sMid.log.Contiguous)
    (hla : sMid.lastApplied ≤ sMid.commitIndex)
    (hcb : sMid.commitIndex ≤ sMid.log.lastIndex sMid.snapshotLastIncludedIndex)
    (hstart : sMid.log.startIndex ≤ sMid.commitIndex + 1)
    (hsnap : sMid.log.startIndex = sMid.snapshotLastIncludedIndex + 1)
    (hlc : req.leaderCommit > sMid.commitIndex) :
    (RaftState.handleAppendEntriesRpc req s).1.success = true
      ∧ (RaftState.handleAppendEntriesRpc req s).2.commitIndex
          = min req.leaderCommit (sMid.log.lastIndex sMid.snapshotLastIncludedIndex)
      ∧ (RaftState.handleAppendEntriesRpc req s).2.appliedLog
          = sMid.appliedLog
            ++ (List.range' (sMid.commitIndex + 1)
                (min req.leaderCommit (sMid.log.lastIndex sMid.snapshotLastIncludedIndex)
                  - sMid.commitIndex)).filterMap sMid.log.entry := by
  unfold RaftState.handleAppendEntriesRpc
  rw [if_neg hterm, hphase]
  dsimp only
  rw [if_pos hlc]
  obtain ⟨h1, h2⟩ :=
    followerAdvance_spec req.leaderCommit sMid hcontig hla hcb hstart hsnap hlc
  exact ⟨rfl, h1, h2⟩

/-- C3 witness: a follower with one committed-pending entry accepts a
heartbeat carrying leader_commit = 1 and applies the entry. -/
theorem C3_follower_commit_advancement_witness :
    (RaftState.handleAppendEntriesRpc ⟨1, 2, 1, 1, [], 1⟩
        { witnessBase with log := ⟨[⟨1, 1, 0, [104]⟩], 1⟩ }).1.success = true
      ∧ (RaftState.handleAppendEntriesRpc ⟨1, 2, 1, 1, [], 1⟩
          { witnessBase with log := ⟨[⟨1, 1, 0, [104]⟩], 1⟩ }).2.commitIndex = 1
      ∧ (RaftState.handleAppendEntriesRpc ⟨1, 2, 1, 1, [], 1⟩
          { witnessBase with log := ⟨[⟨1, 1, 0, [104]⟩], 1⟩ }).2.appliedLog
        = [⟨1, 1, 0, [104]⟩] := by
  obtain ⟨h1, h2, h3⟩ := C3_follower_commit_advancement ⟨1, 2, 1, 1, [], 1⟩
    { witnessBase with log := ⟨[⟨1, 1, 0, [104]⟩], 1⟩ }
    { { witnessBase with log := ⟨[⟨1, 1, 0, [104]⟩], 1⟩ } with
        electionTimerResets := 1, leaderId := 2 }
    (by decide) (by decide) (by decide) (by decide) (by decide) (by decide)
    (by decide) (by decide)
  refine ⟨h1, ?_, ?_⟩
  · rw [h2]
    decide
  · rw [h3]
    decide

end FollowerCommit

section ElectionSafety

/-- VoteSafe is reflexive. -/
theorem voteSafe_refl (s : RaftState) : VoteSafe s s :=
  ⟨rfl, Nat.le_refl _, fun _ => rfl⟩

/-- VoteSafe is transitive. -/
theorem voteSafe_trans {s t u : RaftState} (h1 : VoteSafe s t) (h2 : VoteSafe t u) :
    VoteSafe s u := by
  obtain ⟨a1, b1, c1⟩ := h1
  obtain ⟨a2, b2, c2⟩ := h2
  refine ⟨a2.trans a1, b1.trans b2, fun h => ?_⟩
  rw [c2 (by omega), c1 (by omega)]

/-- VoteSafe transfers along equal identity, term and ballot fields. -/
theorem voteSafe_congr {s t u : RaftState} (h : VoteSafe s t)
    (h1 : u.serverId = t.serverId) (h2 : u.currentTerm = t.currentTerm)
    (h3 : u.votedFor = t.votedFor) : VoteSafe s u := by
  obtain ⟨a, b, c⟩ := h
  refine ⟨h1.trans a, by omega, fun hh => ?_⟩
  rw [h3, c (by omega)]

/-- step_down is VoteSafe: identity kept, term only grows, ballot kept on an
unchanged term. -/
theorem voteSafe_stepDown (t : Nat) (s : RaftState) : VoteSafe s (s.stepDown t) := by
  obtain ⟨hsid, _⟩ := stepDown_frame t s
  have hterm := stepDown_currentTerm t s
  have hv := stepDown_votedFor t s
  refine ⟨hsid, by omega, fun h => ?_⟩
  rw [hv, if_neg (by omega)]

/-- step_down either keeps the role or demotes to Follower. -/
theorem stepDown_state (t : Nat) (s : RaftState) :
    (s.stepDown t).state = s.state ∨ (s.stepDown t).state = NodeRole.follower := by
  unfold RaftState.stepDown
  dsimp only
  split_ifs <;> first | exact Or.inl rfl | exact Or.inr rfl

/-- apply_configuration_to_internal_state never touches the identity, the
term or the ballot. -/
theorem applyConfig_voteFrame (cfg : Config) (committed : Bool) (s : RaftState) :
    (s.applyConfigurationToInternalState cfg committed).serverId = s.serverId
      ∧ (s.applyConfigurationToInternalState cfg committed).currentTerm = s.currentTerm
      ∧ (s.applyConfigurationToInternalState cfg committed).votedFor = s.votedFor := by
  unfold RaftState.applyConfigurationToInternalState RaftState.updatePeerConfigStates
    RaftState.shutdown
  dsimp only
  split_ifs <;> exact ⟨rfl, rfl, rfl⟩

/-- install_snapshot_to_peer is VoteSafe. -/
theorem voteSafe_installSnapshot (env : Env) (pid : Nat) (s : RaftState) :
    VoteSafe s (s.installSnapshotToPeer env pid) := by
  unfold RaftState.installSnapshotToPeer
  cases hf : PeerManager.findPeer s.peers pid with
  | none => exact voteSafe_refl s
  | some p =>
    dsimp only
    cases ho : env.install s.seq with
    | rpcFail => exact ⟨rfl, Nat.le_refl _, fun _ => rfl⟩
    | chunkTerm t =>
      dsimp only
      split_ifs with hgt
      · exact voteSafe_trans ⟨rfl, Nat.le_refl _, fun _ => rfl⟩
          (voteSafe_stepDown t { s with seq := s.seq + 1 })
      · exact ⟨rfl, Nat.le_refl _, fun _ => rfl⟩
    | ok => exact ⟨rfl, Nat.le_refl _, fun _ => rfl⟩

/-- append_one_entry_to_peer is VoteSafe. -/
theorem voteSafe_appendOne (env : Env) (pid : Nat) (hb : Bool) (s : RaftState) :
    VoteSafe s (s.appendOneEntryToPeer env pid hb) := by
  unfold RaftState.appendOneEntryToPeer
  cases hf : PeerManager.findPeer s.peers pid with
  | none => exact voteSafe_refl s
  | some p =>
    dsimp only
    by_cases hsnap : ¬hb = true ∧ p.nextIndex < s.log.startIndex
    · rw [if_pos hsnap]
      exact voteSafe_installSnapshot env pid s
    · rw [if_neg hsnap]
      cases hr : env.appendResp s.seq with
      | none => exact ⟨rfl, Nat.le_refl _, fun _ => rfl⟩
      | some r =>
        dsimp only
        by_cases hgt : r.term > s.currentTerm
        · rw [if_pos hgt]
          exact voteSafe_trans ⟨rfl, Nat.le_refl _, fun _ => rfl⟩
            (voteSafe_stepDown r.term { s with seq := s.seq + 1 })
        · rw [if_neg hgt]
          exact ⟨rfl, Nat.le_refl _, fun _ => rfl⟩

/-- The vote-response loop is VoteSafe and never promotes: whatever branch
it returns through, the resulting state is VoteSafe from the input and is a
leader only if the input already was. -/
theorem pvr_safe :
    ∀ (items : List (Nat × Option RequestVoteResponse)) (s : RaftState) (gN gO : Nat),
      (∀ s1, RaftState.processVoteResponses s items gN gO = Except.error s1 →
        VoteSafe s s1 ∧ (s1.state = NodeRole.leader → s.state = NodeRole.leader)) ∧
      (∀ s1 g1 g2, RaftState.processVoteResponses s items gN gO = Except.ok (s1, g1, g2) →
        VoteSafe s s1 ∧ (s1.state = NodeRole.leader → s.state = NodeRole.leader)) := by
  intro items
  induction items with
  | nil =>
    intro s gN gO
    constructor
    · intro s1 h
      rw [RaftState.processVoteResponses.eq_def] at h
      dsimp only at h
      exact Except.noConfusion h
    · intro s1 g1 g2 h
      rw [RaftState.processVoteResponses.eq_def] at h
      dsimp only at h
      injection h with h
      injection h with h1 h2
      subst h1
      exact ⟨voteSafe_refl s, fun hh => hh⟩
  | cons item rest ih =>
    intro s gN gO
    obtain ⟨pid, resp⟩ := item
    rw [RaftState.processVoteResponses.eq_def]
    dsimp only
    cases resp with
    | none =>
      dsimp only
      by_cases hc : s.state ≠ NodeRole.candidate
      · rw [if_pos hc]
        constructor
        · intro s1 h
          injection h with h
          subst h
          exact ⟨voteSafe_refl s, fun hh => hh⟩
        · intro s1 g1 g2 h
          exact Except.noConfusion h
      · rw [if_neg hc]
        exact ih s gN gO
    | some r =>
      dsimp only
      by_cases hgt : r.term > s.currentTerm
      · rw [if_pos hgt]
        dsimp only
        constructor
        · intro s1 h
          injection h with h
          subst h
          refine ⟨voteSafe_stepDown r.term s, fun hh => ?_⟩
          rcases stepDown_state r.term s with h1 | h1
          · rw [← h1]
            exact hh
          · rw [h1] at hh
            exact NodeRole.noConfusion hh
        · intro s1 g1 g2 h
          exact Except.noConfusion h
      · rw [if_neg hgt]
        by_cases hvg : r.voteGranted = true
        · rw [if_pos hvg]
          cases hf : PeerManager.findPeer s.peers pid with
          | some p =>
            dsimp only
            by_cases hc : s.state ≠ NodeRole.candidate
            · rw [if_pos hc]
              constructor
              · intro s1 h
                injection h with h
                subst h
                exact ⟨⟨rfl, Nat.le_refl _, fun _ => rfl⟩, fun hh => hh⟩
              · intro s1 g1 g2 h
                exact Except.noConfusion h
            · rw [if_neg hc]
              constructor
              · intro s1 h
                obtain ⟨hv, hstt⟩ := (ih _ _ _).1 s1 h
                refine ⟨voteSafe_trans ?_ hv, fun hh => hstt hh⟩
                exact ⟨rfl, Nat.le_refl _, fun _ => rfl⟩
              · intro s1 g1 g2 h
                obtain ⟨hv, hstt⟩ := (ih _ _ _).2 s1 g1 g2 h
                refine ⟨voteSafe_trans ?_ hv, fun hh => hstt hh⟩
                exact ⟨rfl, Nat.le_refl _, fun _ => rfl⟩
          | none =>
            dsimp only
            by_cases hc : s.state ≠ NodeRole.candidate
            · rw [if_pos hc]
              constructor
              · intro s1 h
                injection h with h
                subst h
                exact ⟨voteSafe_refl s, fun hh => hh⟩
              · intro s1 g1 g2 h
                exact Except.noConfusion h
            · rw [if_neg hc]
              exact ih s gN gO
        · rw [if_neg hvg]
          dsimp only
          by_cases hc : s.state ≠ NodeRole.candidate
          · rw [if_pos hc]
            constructor
            · intro s1 h
              injection h with h
              subst h
              exact ⟨voteSafe_refl s, fun hh => hh⟩
            · intro s1 g1 g2 h
              exact Except.noConfusion h
          · rw [if_neg hc]
            exact ih s gN gO

/-- Every function of the fueled leader machinery is VoteSafe, for every
fuel and environment. -/
theorem voteSafe_fueled : ∀ fuel : Nat,
    (∀ env ty data s, VoteSafe s (replicate fuel env ty data s)) ∧
    (∀ env hb s, VoteSafe s (appendEntriesToPeers fuel env hb s)) ∧
    (∀ env hb ids s, VoteSafe s (appendToEachPeer fuel env hb ids s)) ∧
    (∀ env s, VoteSafe s (leaderAdvanceCommitIndex fuel env s)) ∧
    (∀ env idxs s, VoteSafe s (leaderApplyLoop fuel env idxs s)) ∧
    (∀ env s, VoteSafe s (appendAndReplicateFinalConfig fuel env s)) ∧
    (∀ env t s, VoteSafe s (appendAndReplicateConfigChange fuel env t s).2) ∧
    (∀ env s, VoteSafe s (becomeLeader fuel env s)) ∧
    (∀ env s, VoteSafe s (requestVoteRpc fuel env s)) := by
  intro fuel
  induction fuel with
  | zero =>
    exact ⟨fun _ _ _ s => voteSafe_refl s, fun _ _ s => voteSafe_refl s,
      fun _ _ _ s => voteSafe_refl s, fun _ s => voteSafe_refl s,
      fun _ _ s => voteSafe_refl s, fun _ s => voteSafe_refl s,
      fun _ _ s => voteSafe_refl s, fun _ s => voteSafe_refl s,
      fun _ s => voteSafe_refl s⟩
  | succ f ih =>
    obtain ⟨ihRep, ihAE, ihEach, ihAdv, ihLoop, ihFin, ihChg, ihBL, ihRV⟩ := ih
    refine ⟨?_, ?_, ?_, ?_, ?_, ?_, ?_, ?_, ?_⟩
    · intro env ty data s
      rw [replicate]
      by_cases h1 : s.state ≠ NodeRole.leader
      · rw [if_pos h1]
        exact voteSafe_refl s
      · rw [if_neg h1]
        dsimp only
        refine voteSafe_trans ?_ (ihAE env false _)
        split_ifs with hty
        · cases hc : Config.fromData data with
          | none => exact ⟨rfl, Nat.le_refl _, fun _ => rfl⟩
          | some c =>
            obtain ⟨a, b, cv⟩ := applyConfig_voteFrame c false
              { s with log := s.log.appendData s.currentTerm [(ty.toInt, data)] }
            exact ⟨a, le_of_eq b.symm, fun _ => cv⟩
        · exact ⟨rfl, Nat.le_refl _, fun _ => rfl⟩
    · intro env hb s
      rw [appendEntriesToPeers]
      dsimp only
      split_ifs with h1 h2
      · exact voteSafe_refl s
      · exact ihAdv env s
      · exact voteSafe_trans (ihEach env hb _ s) (ihAdv env _)
    · intro env hb ids s
      cases ids with
      | nil =>
        rw [appendToEachPeer]
        exact voteSafe_refl s
      | cons pid rest =>
        rw [appendToEachPeer]
        exact voteSafe_trans (voteSafe_appendOne env pid hb s) (ihEach env hb rest _)
    · intro env s
      rw [leaderAdvanceCommitIndex]
      dsimp only
      split_ifs
      all_goals
        first
        | exact voteSafe_refl s
        | (obtain ⟨a, b, c⟩ :=
            ihLoop env
              (List.range' (s.commitIndex + 1)
                (PeerManager.quoramMatchIndex s.peers s.nodeConfigState
                  (s.log.lastIndex s.snapshotLastIncludedIndex) - s.commitIndex)) s
           exact ⟨a, b, c⟩)
    · intro env idxs s
      cases idxs with
      | nil =>
        rw [leaderApplyLoop]
        exact voteSafe_refl s
      | cons i rest =>
        rw [leaderApplyLoop]
        split_ifs with h1
        · exact ihLoop env rest s
        · cases he : s.log.entry i with
          | none => exact voteSafe_refl s
          | some e =>
            dsimp only
            refine voteSafe_trans (voteSafe_congr ?_ rfl rfl rfl) (ihLoop env rest _)
            cases hk : (entryTypeFromInt e.entryType).getD EntryKind.data with
            | data => exact ⟨rfl, Nat.le_refl _, fun _ => rfl⟩
            | noop => exact voteSafe_refl s
            | configuration =>
              cases hc : Config.fromData e.data with
              | none => exact voteSafe_refl s
              | some c =>
                dsimp only
                have hs3 : VoteSafe s (RaftState.applyConfigurationToInternalState c true s) := by
                  obtain ⟨a, b, cv⟩ := applyConfig_voteFrame c true s
                  exact ⟨a, le_of_eq b.symm, fun _ => cv⟩
                split_ifs with hj
                · exact voteSafe_trans hs3 (ihFin env _)
                · exact hs3
    · intro env s
      rw [appendAndReplicateFinalConfig]
      split_ifs <;> first | exact voteSafe_refl s | exact ihChg env none s
    · intro env t s
      rw [appendAndReplicateConfigChange.eq_def]
      dsimp only
      by_cases h1 : s.state ≠ NodeRole.leader
      · rw [if_pos h1]
        exact voteSafe_refl s
      · rw [if_neg h1]
        cases t with
        | some targets =>
          dsimp only
          split_ifs <;>
            first
            | exact voteSafe_refl s
            | exact ihRep env EntryKind.configuration _ s
        | none =>
          dsimp only
          split_ifs <;>
            first
            | exact voteSafe_refl s
            | exact ihRep env EntryKind.configuration _ s
    · intro env s
      rw [becomeLeader]
      split_ifs with h1
      · exact voteSafe_refl s
      · dsimp only
        have h2 : VoteSafe s
            { s with
              state := NodeRole.leader,
              leaderId := s.serverId,
              peers := List.map
                          (fun p =>
                            { p with
                              nextIndex :=
                                s.log.lastIndex s.snapshotLastIncludedIndex + 1,
                              matchIndex := 0 })
                          s.peers } :=
          ⟨rfl, Nat.le_refl _, fun _ => rfl⟩
        obtain ⟨a, b, c⟩ := voteSafe_trans h2 (ihRep env EntryKind.noop NONE_DATA _)
        exact ⟨a, b, c⟩
    · intro env s
      rw [requestVoteRpc]
      dsimp only
      have hpre : VoteSafe s
          { { s with peers := PeerManager.resetVote s.peers } with
            seq := s.seq + ((PeerManager.resetVote s.peers).map (fun p => p.id)).length } :=
        ⟨rfl, Nat.le_refl _, fun _ => rfl⟩
      split
      · rename_i s1 heq
        exact voteSafe_trans hpre ((pvr_safe _ _ _ _).1 _ heq).1
      · rename_i s1 gN gO heq
        have hm := ((pvr_safe _ _ _ _).2 _ _ _ heq).1
        split_ifs <;>
          first
            | exact voteSafe_trans (voteSafe_trans hpre hm) (ihBL env _)
            | exact voteSafe_trans hpre hm

/-- One cluster transition preserves the election-safety invariant. -/
theorem sysInv_step {M : Finset Nat} {a b : SysState} (h0 : 0 ∉ M)
    (hinv : SysInv M a) (hstep : SysStep M a b) : SysInv M b := by
  obtain ⟨hid, hreqM, hvoteM, hvterm, hvcur, huniq, hlead⟩ := hinv
  cases hstep with
  | startElection c ss hc hnl =>
    refine ⟨?_, ?_, ?_, ?_, ?_, ?_, ?_⟩
    · intro u
      dsimp only
      rw [Function.update_apply]
      split_ifs with hu
      · rw [hu]
        exact hid c
      · exact hid u
    · intro r hr
      dsimp only at hr
      rcases List.mem_append.1 hr with h | h
      · exact hreqM r h
      · rw [List.mem_singleton] at h
        subst h
        exact hc
    · intro x hx
      dsimp only at hx ⊢
      rcases List.mem_append.1 hx with h | h
      · exact hvoteM x h
      · rw [List.mem_singleton] at h
        subst h
        exact hc
    · intro x hx
      dsimp only at hx ⊢
      rcases List.mem_append.1 hx with h | h
      · have hb := hvterm x h
        rw [Function.update_apply]
        split_ifs with hu
        · have he : ((a.nodes c).electionTimeoutLocal).currentTerm
              = (a.nodes c).currentTerm + 1 := rfl
          rw [hu] at hb
          omega
        · exact hb
      · rw [List.mem_singleton] at h
        subst h
        dsimp only
        rw [Function.update_same]
        exact Nat.le_refl _
    · intro x hx hxt
      dsimp only at hx hxt ⊢
      rcases List.mem_append.1 hx with h | h
      · rw [Function.update_apply] at hxt ⊢
        split_ifs at hxt ⊢ with hu
        · have hb := hvterm x h
          rw [hu] at hb
          have he : ((a.nodes c).electionTimeoutLocal).currentTerm
              = (a.nodes c).currentTerm + 1 := rfl
          exact absurd hxt (by omega)
        · exact hvcur x h hxt
      · rw [List.mem_singleton] at h
        subst h
        dsimp only at hxt ⊢
        rw [Function.update_same]
        exact hid c
    · intro x y hx hy h1xy h2xy
      dsimp only at hx hy ⊢
      rcases List.mem_append.1 hx with hxo | hxn
      · rcases List.mem_append.1 hy with hyo | hyn
        · exact huniq x y hxo hyo h1xy h2xy
        · rw [List.mem_singleton] at hyn
          subst hyn
          dsimp only at h1xy h2xy ⊢
          have hb := hvterm x hxo
          rw [h1xy] at hb
          exact absurd h2xy (by omega)
      · rw [List.mem_singleton] at hxn
        subst hxn
        dsimp only at h1xy h2xy ⊢
        rcases List.mem_append.1 hy with hyo | hyn
        · have hb := hvterm y hyo
          rw [← h1xy] at hb
          exact absurd h2xy.symm (by omega)
        · rw [List.mem_singleton] at hyn
          subst hyn
          rfl
    · intro p hp
      dsimp only at hp ⊢
      obtain ⟨S, a1, a2, a3⟩ := hlead p hp
      exact ⟨S, a1, a2, fun u hu => List.mem_append_left _ (a3 u hu)⟩
  | deliverVote v req ss hreq =>
    obtain ⟨hgrant, hrefuse, hsid, hmono⟩ := handleRequestVoteRpc_spec req (a.nodes v)
    by_cases hg : (RaftState.handleRequestVoteRpc req (a.nodes v)).1.voteGranted = true
    · obtain ⟨hterm2, hvoted2, hgcond, hlogok, hmem2, hstate2, hlid2, hreset2⟩ := hgrant hg
      rw [if_pos hg]
      refine ⟨?_, hreqM, ?_, ?_, ?_, ?_, ?_⟩
      · intro u
        dsimp only
        rw [Function.update_apply]
        split_ifs with hu
        · rw [hu, hsid]
          exact hid v
        · exact hid u
      · intro x hx
        dsimp only at hx ⊢
        rcases List.mem_append.1 hx with h | h
        · exact hvoteM x h
        · rw [List.mem_singleton] at h
          subst h
          exact hreqM req hreq
      · intro x hx
        dsimp only at hx ⊢
        rcases List.mem_append.1 hx with h | h
        · have hb := hvterm x h
          rw [Function.update_apply]
          split_ifs with hu
          · rw [hu] at hb
            omega
          · exact hb
        · rw [List.mem_singleton] at h
          subst h
          dsimp only
          rw [Function.update_same]
          omega
      · intro x hx hxt
        dsimp only at hx hxt ⊢
        rcases List.mem_append.1 hx with h | h
        · rw [Function.update_apply] at hxt ⊢
          split_ifs at hxt ⊢ with hu
          · have hb := hvterm x h
            rw [hu] at hb
            rcases hgcond with hlt | ⟨heqt, hv0⟩
            · exact absurd hxt (by omega)
            · have hteq : (a.nodes x.1).currentTerm = x.2.2 := by
                rw [hu]
                omega
              have hvc := hvcur x h hteq
              rw [hu] at hvc
              rcases hv0 with h00 | hcand
              · have hx0 : x.2.1 = NONE_SERVER_ID := hvc.symm.trans h00
                have hm := hvoteM x h
                rw [hx0] at hm
                exact absurd hm h0
              · exact hvoted2.trans (hcand.symm.trans hvc)
          · exact hvcur x h hxt
        · rw [List.mem_singleton] at h
          subst h
          dsimp only at hxt ⊢
          rw [Function.update_same]
          exact hvoted2
      · intro x y hx hy h1xy h2xy
        dsimp only at hx hy ⊢
        rcases List.mem_append.1 hx with hxo | hxn
        · rcases List.mem_append.1 hy with hyo | hyn
          · exact huniq x y hxo hyo h1xy h2xy
          · rw [List.mem_singleton] at hyn
            subst hyn
            dsimp only at h1xy h2xy ⊢
            have hb := hvterm x hxo
            rw [h1xy] at hb
            rcases hgcond with hlt | ⟨heqt, hv0⟩
            · exact absurd h2xy (by omega)
            · have hteq : (a.nodes x.1).currentTerm = x.2.2 := by
                rw [h1xy]
                omega
              have hvc := hvcur x hxo hteq
              rw [h1xy] at hvc
              rcases hv0 with h00 | hcand
              · have hx0 : x.2.1 = NONE_SERVER_ID := hvc.symm.trans h00
                have hm := hvoteM x hxo
                rw [hx0] at hm
                exact absurd hm h0
              · exact hvc.symm.trans hcand
        · rw [List.mem_singleton] at hxn
          subst hxn
          dsimp only at h1xy h2xy ⊢
          rcases List.mem_append.1 hy with hyo | hyn
          · have hb := hvterm y hyo
            rw [← h1xy] at hb
            rcases hgcond with hlt | ⟨heqt, hv0⟩
            · exact absurd h2xy.symm (by omega)
            · have hteq : (a.nodes y.1).currentTerm = y.2.2 := by
                rw [← h1xy]
                omega
              have hvc := hvcur y hyo hteq
              rw [← h1xy] at hvc
              rcases hv0 with h00 | hcand
              · have hy0 : y.2.1 = NONE_SERVER_ID := hvc.symm.trans h00
                have hm := hvoteM y hyo
                rw [hy0] at hm
                exact absurd hm h0
              · exact hcand.symm.trans hvc
          · rw [List.mem_singleton] at hyn
            subst hyn
            rfl
      · intro p hp
        dsimp only at hp ⊢
        obtain ⟨S, a1, a2, a3⟩ := hlead p hp
        exact ⟨S, a1, a2, fun u hu => List.mem_append_left _ (a3 u hu)⟩
    · rw [if_neg hg]
      have hgf : (RaftState.handleRequestVoteRpc req (a.nodes v)).1.voteGranted = false :=
        Bool.eq_false_iff.2 hg
      refine ⟨?_, hreqM, hvoteM, ?_, ?_, huniq, hlead⟩
      · intro u
        dsimp only
        rw [Function.update_apply]
        split_ifs with hu
        · rw [hu, hsid]
          exact hid v
        · exact hid u
      · intro x hx
        dsimp only at hx ⊢
        have hb := hvterm x hx
        rw [Function.update_apply]
        split_ifs with hu
        · rw [hu] at hb
          omega
        · exact hb
      · intro x hx hxt
        dsimp only at hx hxt ⊢
        rw [Function.update_apply] at hxt ⊢
        split_ifs at hxt ⊢ with hu
        · have hb := hvterm x hx
          rw [hu] at hb
          rcases hrefuse hgf with ⟨hts, hvs⟩ | ⟨htr, hgtr, hv0⟩
          · have hteq : (a.nodes x.1).currentTerm = x.2.2 := by
              rw [hu]
              omega
            have hvc := hvcur x hx hteq
            rw [hu] at hvc
            rw [hvs]
            exact hvc
          · exact absurd hxt (by omega)
        · exact hvcur x hx hxt
  | observeTerm v t ss =>
    refine ⟨?_, hreqM, hvoteM, ?_, ?_, huniq, hlead⟩
    · intro u
      dsimp only
      rw [Function.update_apply]
      split_ifs with hu
      · rw [hu, (stepDown_frame t (a.nodes v)).1]
        exact hid v
      · exact hid u
    · intro x hx
      dsimp only at hx ⊢
      have hb := hvterm x hx
      rw [Function.update_apply]
      split_ifs with hu
      · rw [hu] at hb
        have hst := stepDown_currentTerm t (a.nodes v)
        omega
      · exact hb
    · intro x hx hxt
      dsimp only at hx hxt ⊢
      rw [Function.update_apply] at hxt ⊢
      split_ifs at hxt ⊢ with hu
      · have hb := hvterm x hx
        rw [hu] at hb
        have hst := stepDown_currentTerm t (a.nodes v)
        have hsv := stepDown_votedFor t (a.nodes v)
        by_cases hlt : (a.nodes v).currentTerm < t
        · exact absurd hxt (by omega)
        · rw [if_neg hlt] at hsv
          rw [hsv]
          have hteq : (a.nodes x.1).currentTerm = x.2.2 := by
            rw [hu]
            omega
          have hvc := hvcur x hx hteq
          rw [hu] at hvc
          exact hvc
      · exact hvcur x hx hxt
  | leaderElected c fuel env S ss hcand hSM hmaj hSv =>
    obtain ⟨hbsid, hbmono, hbvf⟩ :=
      (voteSafe_fueled fuel).2.2.2.2.2.2.2.1 env (a.nodes c)
    refine ⟨?_, hreqM, hvoteM, ?_, ?_, huniq, ?_⟩
    · intro u
      dsimp only
      rw [Function.update_apply]
      split_ifs with hu
      · rw [hu, hbsid]
        exact hid c
      · exact hid u
    · intro x hx
      dsimp only at hx ⊢
      have hb := hvterm x hx
      rw [Function.update_apply]
      split_ifs with hu
      · rw [hu] at hb
        omega
      · exact hb
    · intro x hx hxt
      dsimp only at hx hxt ⊢
      rw [Function.update_apply] at hxt ⊢
      split_ifs at hxt ⊢ with hu
      · have hb := hvterm x hx
        rw [hu] at hb
        rw [hbvf (by omega)]
        have hteq : (a.nodes x.1).currentTerm = x.2.2 := by
          rw [hu]
          omega
        have hvc := hvcur x hx hteq
        rw [hu] at hvc
        exact hvc
      · exact hvcur x hx hxt
    · intro p hp
      dsimp only at hp ⊢
      rcases List.mem_append.1 hp with h | h
      · exact hlead p h
      · rw [List.mem_singleton] at h
        subst h
        exact ⟨S, hSM, hmaj, hSv⟩

/-- The invariant holds in every reachable cluster state. -/
theorem sysInv_of_reachable {M : Finset Nat} {ss0 ss : SysState} (h0 : 0 ∉ M)
    (hinit : SysInit ss0) (hr : SysReachable M ss0 ss) : SysInv M ss := by
  induction hr with
  | refl =>
    obtain ⟨hi1, hiv, hil, hir⟩ := hinit
    refine ⟨hi1, ?_, ?_, ?_, ?_, ?_, ?_⟩
    · intro r hr
      rw [hir] at hr
      exact absurd hr (List.not_mem_nil r)
    · intro x hx
      rw [hiv] at hx
      exact absurd hx (List.not_mem_nil x)
    · intro x hx
      rw [hiv] at hx
      exact absurd hx (List.not_mem_nil x)
    · intro x hx
      rw [hiv] at hx
      exact absurd hx (List.not_mem_nil x)
    · intro x y hx
      rw [hiv] at hx
      exact absurd hx (List.not_mem_nil x)
    · intro p hp
      rw [hil] at hp
      exact absurd hp (List.not_mem_nil p)
  | tail hra hstep ih => exact sysInv_step h0 ih hstep

/-- Election safety follows from the invariant by quorum intersection: two
majorities of M share a voter, who voted for at most one candidate in the
term. -/
theorem electionSafety_of_inv {M : Finset Nat} {ss : SysState} (hinv : SysInv M ss) :
    ∀ p ∈ ss.leaders, ∀ q ∈ ss.leaders, p.2 = q.2 → p.1 = q.1 := by
  obtain ⟨-, -, -, -, -, huniq, hlead⟩ := hinv
  intro p hp q hq hpq
  obtain ⟨S1, hS1M, hS1c, hS1v⟩ := hlead p hp
  obtain ⟨S2, hS2M, hS2c, hS2v⟩ := hlead q hq
  have hne : (S1 ∩ S2).Nonempty := by
    by_contra hne
    rw [Finset.not_nonempty_iff_eq_empty] at hne
    have hu : S1 ∪ S2 ⊆ M := Finset.union_subset hS1M hS2M
    have hcard := Finset.card_le_card hu
    have hsum := Finset.card_union_add_card_inter S1 S2
    rw [hne, Finset.card_empty] at hsum
    omega
  obtain ⟨u, hu⟩ := hne
  have h1 := hS1v u (Finset.mem_inter.1 hu).1
  have h2 := hS2v u (Finset.mem_inter.1 hu).2
  exact huniq (u, p.1, p.2) (u, q.1, q.2) h1 h2 rfl hpq

/-- request_vote_rpc reaches leadership only through the majority check on a
candidate: a successful run decomposes into the vote-processing loop
returning tallies that pass the strict-majority test for both membership
sets, on a state still in Candidate, followed by become_leader. -/
theorem requestVoteRpc_leader_decomp :
    ∀ (fuel : Nat) (env : Env) (s : RaftState),
      s.state ≠ NodeRole.leader →
      (requestVoteRpc fuel env s).state = NodeRole.leader →
      ∃ f s1 gNew gOld,
        fuel = f + 1 ∧
        RaftState.processVoteResponses
            { { s with peers := PeerManager.resetVote s.peers } with
              seq := s.seq
                + ((PeerManager.resetVote s.peers).map (fun p => p.id)).length }
            (((PeerManager.resetVote s.peers).map (fun p => p.id)).enum.map
              (fun ip => (ip.2, env.voteResp (s.seq + ip.1))))
            (if s.nodeConfigState.newing then 1 else 0)
            (if s.nodeConfigState.olding then 1 else 0)
          = Except.ok (s1, gNew, gOld) ∧
        s1.state = NodeRole.candidate ∧
        ((if s.nodeConfigState.newing then 1 else 0)
            + (s1.peers.filter (fun p => p.configState.newing)).length = 0
          ∨ gNew * 2 > (if s.nodeConfigState.newing then 1 else 0)
              + (s1.peers.filter (fun p => p.configState.newing)).length) ∧
        ((if s.nodeConfigState.olding then 1 else 0)
            + (s1.peers.filter (fun p => p.configState.olding)).length = 0
          ∨ gOld * 2 > (if s.nodeConfigState.olding then 1 else 0)
              + (s1.peers.filter (fun p => p.configState.olding)).length) ∧
        requestVoteRpc fuel env s = becomeLeader f env s1 := by
  intro fuel env s hnl hres
  cases fuel with
  | zero => exact absurd hres hnl
  | succ f =>
    rw [requestVoteRpc] at hres
    dsimp only at hres
    split at hres
    · rename_i s1 heq
      exact absurd (((pvr_safe _ _ _ _).1 _ heq).2 hres) hnl
    · rename_i s1 gN gO heq
      by_cases hcond : ((if s.nodeConfigState.newing then 1 else 0)
            + (s1.peers.filter (fun p => p.configState.newing)).length = 0
          ∨ gN * 2 > (if s.nodeConfigState.newing then 1 else 0)
              + (s1.peers.filter (fun p => p.configState.newing)).length)
        ∧ ((if s.nodeConfigState.olding then 1 else 0)
            + (s1.peers.filter (fun p => p.configState.olding)).length = 0
          ∨ gO * 2 > (if s.nodeConfigState.olding then 1 else 0)
              + (s1.peers.filter (fun p => p.configState.olding)).length)
      · rw [if_pos hcond] at hres
        by_cases hcand : s1.state = NodeRole.candidate
        · rw [if_pos hcand] at hres
          refine ⟨f, s1, gN, gO, rfl, heq, hcand, hcond.1, hcond.2, ?_⟩
          rw [requestVoteRpc]
          dsimp only
          rw [heq]
          dsimp only
          rw [if_pos hcond, if_pos hcand]
        · rw [if_neg hcand] at hres
          exact absurd (((pvr_safe _ _ _ _).2 _ _ _ heq).2 hres) hnl
      · rw [if_neg hcond] at hres
        exact absurd (((pvr_safe _ _ _ _).2 _ _ _ heq).2 hres) hnl

/-- C1: Election safety: in every reachable state of the cluster model (with
member set M not containing the reserved id 0), at most one replica
transitions to Leader per term — any two recorded leader transitions with
the same term name the same replica; and the embedded request_vote_rpc makes
a non-leader reach leadership only as a Candidate whose granted-vote tallies
form a strict majority in every non-empty membership set of the active
configuration, via become_leader. -/
theorem C1_election_safety :
    (∀ (M : Finset Nat) (ss0 ss : SysState), 0 ∉ M → SysInit ss0 →
        SysReachable M ss0 ss →
        ∀ p ∈ ss.leaders, ∀ q ∈ ss.leaders, p.2 = q.2 → p.1 = q.1) ∧
    (∀ (fuel : Nat) (env : Env) (s : RaftState),
        s.state ≠ NodeRole.leader →
        (requestVoteRpc fuel env s).state = NodeRole.leader →
        ∃ f s1 gNew gOld,
          fuel = f + 1 ∧
          RaftState.processVoteResponses
              { { s with peers := PeerManager.resetVote s.peers } with
                seq := s.seq
                  + ((PeerManager.resetVote s.peers).map (fun p => p.id)).length }
              (((PeerManager.resetVote s.peers).map (fun p => p.id)).enum.map
                (fun ip => (ip.2, env.voteResp (s.seq + ip.1))))
              (if s.nodeConfigState.newing then 1 else 0)
              (if s.nodeConfigState.olding then 1 else 0)
            = Except.ok (s1, gNew, gOld) ∧
          s1.state = NodeRole.candidate ∧
          ((if s.nodeConfigState.newing then 1 else 0)
              + (s1.peers.filter (fun p => p.configState.newing)).length = 0
            ∨ gNew * 2 > (if s.nodeConfigState.newing then 1 else 0)
                + (s1.peers.filter (fun p => p.configState.newing)).length) ∧
          ((if s.nodeConfigState.olding then 1 else 0)
              + (s1.peers.filter (fun p => p.configState.olding)).length = 0
            ∨ gOld * 2 > (if s.nodeConfigState.olding then 1 else 0)
                + (s1.peers.filter (fun p => p.configState.olding)).length) ∧
          requestVoteRpc fuel env s = becomeLeader f env s1) :=
  ⟨fun M ss0 ss h0 hinit hr => electionSafety_of_inv (sysInv_of_reachable h0 hinit hr),
    requestVoteRpc_leader_decomp⟩

set_option maxHeartbeats 1000000 in
/-- C1 witness: a concrete three-node run (node 1 times out, node 2 grants
its vote, node 1 is elected with majority set containing nodes 1 and 2 in
term 2) goes through the safety theorem, and a concrete candidate run of
request_vote_rpc with granted responses decomposes through the majority
tally. -/
theorem C1_election_safety_witness :
    ((1, 2) : Nat × Nat).1 = ((1, 2) : Nat × Nat).1 ∧
    (∃ f s1 gNew gOld,
      (2 : Nat) = f + 1 ∧
      RaftState.processVoteResponses
          { { wcand with peers := PeerManager.resetVote wcand.peers } with
            seq := wcand.seq
              + ((PeerManager.resetVote wcand.peers).map (fun p => p.id)).length }
          (((PeerManager.resetVote wcand.peers).map (fun p => p.id)).enum.map
            (fun ip => (ip.2, envGrant.voteResp (wcand.seq + ip.1))))
          (if wcand.nodeConfigState.newing then 1 else 0)
          (if wcand.nodeConfigState.olding then 1 else 0)
        = Except.ok (s1, gNew, gOld) ∧
      s1.state = NodeRole.candidate ∧
      ((if wcand.nodeConfigState.newing then 1 else 0)
          + (s1.peers.filter (fun p => p.configState.newing)).length = 0
        ∨ gNew * 2 > (if wcand.nodeConfigState.newing then 1 else 0)
            + (s1.peers.filter (fun p => p.configState.newing)).length) ∧
      ((if wcand.nodeConfigState.olding then 1 else 0)
          + (s1.peers.filter (fun p => p.configState.olding)).length = 0
        ∨ gOld * 2 > (if wcand.nodeConfigState.olding then 1 else 0)
            + (s1.peers.filter (fun p => p.configState.olding)).length) ∧
      requestVoteRpc 2 envGrant wcand = becomeLeader f envGrant s1) := by
  constructor
  · exact C1_election_safety.1 {1, 2, 3} wsys0 _ (by decide)
      ⟨fun v => rfl, rfl, rfl, rfl⟩
      (SysReachable.tail
        (SysReachable.tail
          (SysReachable.tail SysReachable.refl
            (SysStep.startElection 1 wsys0 (by decide) (by decide)))
          (SysStep.deliverVote 2 ⟨2, 1, 0, 0⟩ _ (by decide)))
        (SysStep.leaderElected 1 3 envNone {1, 2} _ (by decide) (by decide) (by decide)
          (by decide)))
      (1, 2) (by decide) (1, 2) (by decide) rfl
  · exact C1_election_safety.2 2 envGrant wcand (by decide) (by decide)

end ElectionSafety

end Raft
